import Mathlib

/-!
Shallow embedding of `src/backend/utils/misc/timeout.c`: the SIGALRM timeout
multiplexer.  Timestamps (`TimestampTz`) are modelled as `Int` microseconds.
Handler function pointers are modelled as `Option Nat`: `none` is a NULL
pointer (unregistered reason) and `some h` an opaque callback token.  The
process-wide state (the `all_timeouts` array, `num_active_timeouts` and the
`active_timeouts` queue) is the `MuxState` structure; a surrounding `World`
adds the external collaborators: the clock (an oracle giving the value of
each successive `GetCurrentTimestamp` call), the log of `setitimer`
programmings performed so far, and the log of handler invocations made by the
signal handler.  The active queue is kept as the list of `TimeoutId`s whose
registry entries its pointer slots reference (`active_timeouts[i]` is always
`&all_timeouts[id]` for some id).
-/

/-- Modelled from the spec: the compile-time constant `MAX_TIMEOUTS` from the
header `utils/timeout.h`, which is not among the sources; the bound on the
number of distinct timeout reasons. -/
def MAX_TIMEOUTS : Nat := 16

/-- Modelled from the spec: the constant `USER_TIMEOUT` from `utils/timeout.h`,
the first identifier of the dynamically allocatable range. -/
def USER_TIMEOUT : Nat := 6

/-- Modelled from the spec: microseconds per second, used by the clock
helper. -/
def USECS_PER_SEC : Int := 1000000

/-- Modelled from the spec: the batch-entry type tag `TMPARAM_AFTER` of
`EnableTimeoutParams` (a C enum value, hence an integer). -/
def TMPARAM_AFTER : Nat := 0

/-- Modelled from the spec: the batch-entry type tag `TMPARAM_AT`. -/
def TMPARAM_AT : Nat := 1

/-- Data about any one timeout reason (struct `timeout_params` of the
source). -/
structure timeout_params where
  index : Nat
  indicator : Bool
  timeout_handler : Option Nat
  start_time : Int
  fin_time : Int
deriving DecidableEq

/-- Modelled from the spec: the batched-enable configuration object
`EnableTimeoutParams` of `utils/timeout.h`.  `type` is a C enum, i.e. an
integer, so values other than `TMPARAM_AFTER`/`TMPARAM_AT` are representable
(the source's `switch` has a `default:` arm for them). -/
structure EnableTimeoutParams where
  id : Nat
  type : Nat
  delay_ms : Int
  fin_time : Int
deriving DecidableEq

/-- Modelled from the spec: the batched-disable configuration object
`DisableTimeoutParams` of `utils/timeout.h`. -/
structure DisableTimeoutParams where
  id : Nat
  keep_indicator : Bool
deriving DecidableEq

/-- Process-wide multiplexer state: the static variables of `timeout.c`.
`active` lists the ids referenced by `active_timeouts[0..num_active_timeouts)`,
so `num_active_timeouts` is `active.length`. -/
structure MuxState where
  timeouts : Nat → timeout_params
  all_timeouts_initialized : Bool
  active : List Nat

/-- Multiplexer state plus the external collaborators: the clock oracle (the
k-th `GetCurrentTimestamp` call returns `clock k`), the count of clock reads
made so far, the chronological log of `it_value` arguments passed to
`setitimer`, and the chronological log of timeout ids whose handlers the
signal handler has invoked. -/
structure World where
  mux : MuxState
  clock : Nat → Int
  clock_reads : Nat
  timer_log : List (Int × Int)
  fired_log : List Nat

/-- Number of active timeouts (`num_active_timeouts`). -/
def num_active_timeouts (m : MuxState) : Nat := m.active.length

/-- Modelled from the spec: the clock collaborator `GetCurrentTimestamp`,
returning the next oracle value and consuming one read. -/
def GetCurrentTimestamp (w : World) : Int × World :=
  (w.clock w.clock_reads, { w with clock_reads := w.clock_reads + 1 })

/-- Modelled from the spec: the clock helper
`TimestampDifference(start, stop, *secs, *usecs)`, the "difference in seconds
+ microseconds" operation; a difference that is not positive yields (0, 0). -/
def TimestampDifference (start_time stop_time : Int) : Int × Int :=
  let diff := stop_time - start_time
  if diff ≤ 0 then (0, 0)
  else (diff / USECS_PER_SEC, diff % USECS_PER_SEC)

/-- Modelled from the spec: the clock helper `TimestampTzPlusMilliseconds`,
adding a millisecond count to a microsecond timestamp. -/
def TimestampTzPlusMilliseconds (tz : Int) (ms : Int) : Int := tz + ms * 1000

/-- Modelled from the spec: the process-wide countdown timer collaborator.  A
(successful) `setitimer(ITIMER_REAL, &timeval, NULL)` call is recorded by
appending the programmed `it_value` (seconds, microseconds) to the log;
(0, 0) disarms the timer. -/
def setitimer (v : Int × Int) (w : World) : World :=
  { w with timer_log := w.timer_log ++ [v] }

/-- Function `disable_alarm` of the source: skip the `setitimer` syscall when
the queue is empty and the caller intends only a single insert. -/
def disable_alarm (multi_insert : Bool) (w : World) : World :=
  if multi_insert || num_active_timeouts w.mux > 0 then
    setitimer (0, 0) w
  else w

/-- Scan of function `find_active_timeout`: position of the first active slot
whose entry's `index` equals `id`.  The source returns -1 when absent; that
sentinel is modelled as `none`. -/
def find_active_in (ts : Nat → timeout_params) (id : Nat) : List Nat → Option Nat
  | [] => none
  | j :: rest =>
    if (ts j).index = id then some 0
    else (find_active_in ts id rest).map (· + 1)

/-- Function `find_active_timeout` of the source. -/
def find_active_timeout (id : Nat) (m : MuxState) : Option Nat :=
  find_active_in m.timeouts id m.active

/-- Function `insert_timeout` of the source: shift `active[index..]` right and
write the new reference at `index`, then bump `num_active_timeouts`.  The
source's FATAL range check `0 ≤ index ≤ num_active_timeouts` holds at every
call site (proved below), so the in-range behavior is modelled. -/
def insert_timeout (id : Nat) (index : Nat) (m : MuxState) : MuxState :=
  { m with active := m.active.insertIdx index id }

/-- Function `remove_timeout_index` of the source: shift `active[index+1..]`
left and decrement `num_active_timeouts`.  The source's FATAL range check
`0 ≤ index < num_active_timeouts` holds at every call site. -/
def remove_timeout_index (index : Nat) (m : MuxState) : MuxState :=
  { m with active := m.active.eraseIdx index }

/-- Insertion-position scan of function `enable_timeout`: the first queue
position whose entry's `(fin_time, index)` key is lexicographically above the
new `(fin_time, id)` key, mirroring the two `break` conditions of the
source's `for` loop. -/
def enable_insert_pos (ts : Nat → timeout_params) (fin_time : Int) (id : Nat) :
    List Nat → Nat
  | [] => 0
  | j :: rest =>
    if fin_time < (ts j).fin_time then 0
    else if fin_time = (ts j).fin_time ∧ id < (ts j).index then 0
    else enable_insert_pos ts fin_time id rest + 1

/-- Function `enable_timeout` of the source: remove the id from the queue if
already present, find the sorted position for the new key, mark the entry
(`indicator := false`, `start_time := now`, `fin_time := fin_time`) and
insert.  The source's assertions (`all_timeouts_initialized`, handler
non-NULL) are preconditions carried by the theorems below. -/
def enable_timeout (id : Nat) (now fin_time : Int) (m : MuxState) : MuxState :=
  let m1 := match find_active_timeout id m with
            | some i => remove_timeout_index i m
            | none => m
  let pos := enable_insert_pos m1.timeouts fin_time id m1.active
  let m2 := { m1 with
              timeouts := fun j =>
                if j = id then
                  { m1.timeouts id with
                    indicator := false, start_time := now, fin_time := fin_time }
                else m1.timeouts j }
  insert_timeout id pos m2

/-- Function `schedule_alarm` of the source: when the queue is non-empty,
program the timer to the difference `active[0].fin_time − now`, rounding an
exact (0, 0) up to one microsecond so that the programmed value never
disarms. -/
def schedule_alarm (now : Int) (w : World) : World :=
  match w.mux.active with
  | [] => w
  | j :: _ =>
    let sd := TimestampDifference now (w.mux.timeouts j).fin_time
    let usecs := if sd.1 = 0 ∧ sd.2 = 0 then 1 else sd.2
    setitimer (sd.1, usecs) w

/-- Firing loop of function `handle_sig_alarm`: while the queue is non-empty
and the head is due (`now >= active[0].fin_time`), pop the head, set its
indicator, invoke its handler (recorded in `fired_log`), and re-read the
clock.  Returns the final `now` together with the final state. -/
def handle_sig_alarm_loop (now : Int) (w : World) : Int × World :=
  match h : w.mux.active with
  | [] => (now, w)
  | j :: rest =>
    if now ≥ (w.mux.timeouts j).fin_time then
      let w1 := { w with mux := remove_timeout_index 0 w.mux }
      let w2 := { w1 with mux := { w1.mux with
                  timeouts := fun k =>
                    if k = j then { w1.mux.timeouts j with indicator := true }
                    else w1.mux.timeouts k } }
      let w3 := { w2 with fired_log := w2.fired_log ++ [j] }
      let p := GetCurrentTimestamp w3
      handle_sig_alarm_loop p.1 p.2
    else (now, w)
termination_by w.mux.active.length
decreasing_by
  simp [GetCurrentTimestamp, remove_timeout_index, h]

/-- Function `handle_sig_alarm` of the source.  The `errno` save/restore and
the `SetLatch` wake-up are host-platform effects outside the multiplexer
state and are not modelled.  When timeouts are active, fire all due ones and
reschedule the interrupt. -/
def handle_sig_alarm (w : World) : World :=
  if num_active_timeouts w.mux > 0 then
    let p := GetCurrentTimestamp w
    let q := handle_sig_alarm_loop p.1 p.2
    schedule_alarm q.1 q.2
  else w

/-- Function `InitializeTimeouts` of the source: reset `num_active_timeouts`,
zero every registry entry (setting each entry's `index` to its slot number),
and mark the module initialized.  Installing the signal disposition via
`pqsignal` is a host effect and is not modelled. -/
def InitializeTimeouts (w : World) : World :=
  { w with mux :=
    { timeouts := fun i =>
        if i < MAX_TIMEOUTS then
          { index := i, indicator := false, timeout_handler := none,
            start_time := 0, fin_time := 0 }
        else w.mux.timeouts i
      all_timeouts_initialized := true
      active := [] } }

/-- Allocation scan of function `RegisterTimeout`: starting from slot `start`,
find the first of `fuel` successive slots whose handler is unset. -/
def register_scan (ts : Nat → timeout_params) : Nat → Nat → Option Nat
  | _, 0 => none
  | start, fuel + 1 =>
    if (ts start).timeout_handler = none then some start
    else register_scan ts (start + 1) fuel

/-- Function `RegisterTimeout` of the source: for `id < USER_TIMEOUT` record
the handler at slot `id`; for `id >= USER_TIMEOUT` allocate the first free
slot of `[USER_TIMEOUT, MAX_TIMEOUTS)`, failing fatally (`.error ()`, the
`ereport(FATAL, ...)` of the source) when none is free.  Returns the chosen
id and the updated state. -/
def RegisterTimeout (id : Nat) (handler : Nat) (w : World) :
    Except Unit (Nat × World) :=
  let chosen : Option Nat :=
    if id ≥ USER_TIMEOUT then
      register_scan w.mux.timeouts USER_TIMEOUT (MAX_TIMEOUTS - USER_TIMEOUT)
    else some id
  match chosen with
  | none => .error ()
  | some j =>
    .ok (j, { w with mux := { w.mux with
        timeouts := fun k =>
          if k = j then { w.mux.timeouts j with timeout_handler := some handler }
          else w.mux.timeouts k } })

/-- Function `enable_timeout_after` of the source. -/
def enable_timeout_after (id : Nat) (delay_ms : Int) (w : World) : World :=
  let w := disable_alarm false w
  let p := GetCurrentTimestamp w
  let fin_time := TimestampTzPlusMilliseconds p.1 delay_ms
  let w := { p.2 with mux := enable_timeout id p.1 fin_time p.2.mux }
  schedule_alarm p.1 w

/-- Function `enable_timeout_at` of the source. -/
def enable_timeout_at (id : Nat) (fin_time : Int) (w : World) : World :=
  let w := disable_alarm false w
  let p := GetCurrentTimestamp w
  let w := { p.2 with mux := enable_timeout id p.1 fin_time p.2.mux }
  schedule_alarm p.1 w

/-- Per-entry loop of function `enable_timeouts`: dispatch on each entry's
`type`; the `default:` arm raises the non-fatal `elog(ERROR, "unrecognized
timeout type")`, modelled as `.error` carrying the state as mutated so far
(the error propagates out of the loop, skipping the remaining entries and
the final `schedule_alarm`). -/
def enable_timeouts_go (now : Int) : List EnableTimeoutParams → World →
    Except World World
  | [], w => .ok w
  | p :: rest, w =>
    if p.type = TMPARAM_AFTER then
      let fin_time := TimestampTzPlusMilliseconds now p.delay_ms
      enable_timeouts_go now rest { w with mux := enable_timeout p.id now fin_time w.mux }
    else if p.type = TMPARAM_AT then
      enable_timeouts_go now rest { w with mux := enable_timeout p.id now p.fin_time w.mux }
    else
      .error w

/-- Function `enable_timeouts` of the source; `count` is the length of the
parameter list.  Disable the alarm (forcibly when more than one entry will be
inserted), read the clock once, enable every entry, then schedule once. -/
def enable_timeouts (ps : List EnableTimeoutParams) (w : World) :
    Except World World :=
  let w := disable_alarm (ps.length > 1) w
  let p := GetCurrentTimestamp w
  match enable_timeouts_go p.1 ps p.2 with
  | .error w1 => .error w1
  | .ok w1 => .ok (schedule_alarm p.1 w1)

/-- Function `disable_timeout` of the source: disable the alarm, remove the
id from the queue when present, clear the indicator unless asked to keep it,
and reschedule when any timeouts remain active. -/
def disable_timeout (id : Nat) (keep_indicator : Bool) (w : World) : World :=
  let w := disable_alarm false w
  let w := { w with mux :=
    match find_active_timeout id w.mux with
    | some i => remove_timeout_index i w.mux
    | none => w.mux }
  let w := if keep_indicator then w
           else { w with mux := { w.mux with
             timeouts := fun k =>
               if k = id then { w.mux.timeouts id with indicator := false }
               else w.mux.timeouts k } }
  if num_active_timeouts w.mux > 0 then
    let p := GetCurrentTimestamp w
    schedule_alarm p.1 p.2
  else w

/-- Per-entry loop of function `disable_timeouts`. -/
def disable_timeouts_go : List DisableTimeoutParams → MuxState → MuxState
  | [], m => m
  | p :: rest, m =>
    let m := match find_active_timeout p.id m with
             | some i => remove_timeout_index i m
             | none => m
    let m := if p.keep_indicator then m
             else { m with
               timeouts := fun k =>
                 if k = p.id then { m.timeouts p.id with indicator := false }
                 else m.timeouts k }
    disable_timeouts_go rest m

/-- Function `disable_timeouts` of the source. -/
def disable_timeouts (ps : List DisableTimeoutParams) (w : World) : World :=
  let w := disable_alarm false w
  let w := { w with mux := disable_timeouts_go ps w.mux }
  if num_active_timeouts w.mux > 0 then
    let p := GetCurrentTimestamp w
    schedule_alarm p.1 p.2
  else w

/-- Function `disable_all_timeouts` of the source: forcibly reset the timer
whether or not it is thought active, empty the queue, and optionally clear
every indicator. -/
def disable_all_timeouts (keep_indicators : Bool) (w : World) : World :=
  let w := setitimer (0, 0) w
  let w := { w with mux := { w.mux with active := [] } }
  if keep_indicators then w
  else { w with mux := { w.mux with
    timeouts := fun i =>
      if i < MAX_TIMEOUTS then { w.mux.timeouts i with indicator := false }
      else w.mux.timeouts i } }

/-- Function `get_timeout_indicator` of the source: report the indicator,
resetting it only when it is set and `reset_indicator` was requested. -/
def get_timeout_indicator (id : Nat) (reset_indicator : Bool) (w : World) :
    Bool × World :=
  if (w.mux.timeouts id).indicator then
    (true,
     if reset_indicator then
       { w with mux := { w.mux with
         timeouts := fun k =>
           if k = id then { w.mux.timeouts id with indicator := false }
           else w.mux.timeouts k } }
     else w)
  else (false, w)

/-- Function `get_timeout_start_time` of the source. -/
def get_timeout_start_time (id : Nat) (w : World) : Int :=
  (w.mux.timeouts id).start_time

/-!
The queue invariants (spec §3 and §8): strict `(fin_time, index)` ordering,
no duplicate ids, registered handlers, bounded length; together with the
structural facts that make them meaningful — every queued id indexes the
registry (`< MAX_TIMEOUTS`) and every registry entry's `index` field equals
its slot (established by `InitializeTimeouts` and never changed thereafter).
-/

/-- Lexicographic strict order on `(fin_time, index)` keys. -/
def keyLt (a b : Int × Nat) : Prop :=
  a.1 < b.1 ∨ (a.1 = b.1 ∧ a.2 < b.2)

instance keyLt.dec (a b : Int × Nat) : Decidable (keyLt a b) := by
  unfold keyLt; exact inferInstance

/-- Sort key of a registry entry. -/
def entryKey (ts : Nat → timeout_params) (j : Nat) : Int × Nat :=
  ((ts j).fin_time, (ts j).index)

/-- Queue ordering relation between ids, through their registry entries. -/
def queueLt (ts : Nat → timeout_params) (a b : Nat) : Prop :=
  keyLt (entryKey ts a) (entryKey ts b)

instance queueLt.dec (ts : Nat → timeout_params) (a b : Nat) :
    Decidable (queueLt ts a b) := by
  unfold queueLt; exact inferInstance

/-- Queue invariants of the multiplexer state. -/
def WF (m : MuxState) : Prop :=
  m.active.Pairwise (queueLt m.timeouts) ∧
  m.active.Nodup ∧
  (∀ j ∈ m.active, (m.timeouts j).timeout_handler ≠ none ∧ j < MAX_TIMEOUTS) ∧
  num_active_timeouts m ≤ MAX_TIMEOUTS ∧
  (∀ j, j < MAX_TIMEOUTS → (m.timeouts j).index = j)

instance WF.dec (m : MuxState) : Decidable (WF m) := by
  unfold WF num_active_timeouts; exact inferInstance

/-- Timer value programmed by `schedule_alarm` for a queue head entry: the
clock difference, with an exact zero rounded up to one microsecond. -/
def sched_value (now : Int) (e : timeout_params) : Int × Int :=
  let sd := TimestampDifference now e.fin_time
  (sd.1, if sd.1 = 0 ∧ sd.2 = 0 then 1 else sd.2)

/-- Underlying world of either outcome of a batched enable. -/
def except_world : Except World World → World
  | .ok w => w
  | .error w => w

/-- One iteration of the signal handler's firing loop on the multiplexer
state: pop the queue head `j`, set its indicator, and record the handler
invocation. -/
def fire_step (j : Nat) (w : World) : World :=
  { w with
    mux := { timeouts := fun k =>
               if k = j then { w.mux.timeouts j with indicator := true }
               else w.mux.timeouts k,
             all_timeouts_initialized := w.mux.all_timeouts_initialized,
             active := w.mux.active.eraseIdx 0 },
    fired_log := w.fired_log ++ [j] }

/-- Example world: a freshly initialized module with handlers registered for
reasons 2, 3 and 5, an empty queue, and a monotone clock oracle. -/
def wExample : World :=
  { mux :=
    { timeouts := fun i =>
        { index := i, indicator := false,
          timeout_handler := if i = 2 ∨ i = 3 ∨ i = 5 then some 7 else none,
          start_time := 0, fin_time := 0 },
      all_timeouts_initialized := true,
      active := [] },
    clock := fun k => 1000000 + 600000 * k,
    clock_reads := 0, timer_log := [], fired_log := [] }

/-- Example world with reasons 2 and 3 armed (fire times 1100000 and
1200000). -/
def wArmed : World :=
  enable_timeout_at 3 1200000 (enable_timeout_at 2 1100000 wExample)

theorem keyLt_trans {a b c : Int × Nat} (h1 : keyLt a b) (h2 : keyLt b c) :
    keyLt a c := by
  unfold keyLt at *
  rcases h1 with h1 | ⟨e1, l1⟩ <;> rcases h2 with h2 | ⟨e2, l2⟩
  · exact Or.inl (lt_trans h1 h2)
  · exact Or.inl (e2 ▸ h1)
  · exact Or.inl (e1 ▸ h2)
  · exact Or.inr ⟨e1.trans e2, lt_trans l1 l2⟩

/-- Fused form of `find_active_timeout` followed by `remove_timeout_index`:
drop the first queue element whose entry's `index` is `id`. -/
def remove_found (ts : Nat → timeout_params) (id : Nat) : List Nat → List Nat
  | [] => []
  | j :: rest => if (ts j).index = id then rest else j :: remove_found ts id rest

theorem find_remove_eq (ts : Nat → timeout_params) (id : Nat) :
    ∀ l : List Nat,
      (match find_active_in ts id l with
       | some i => l.eraseIdx i
       | none => l) = remove_found ts id l
  | [] => rfl
  | j :: rest => by
    by_cases hj : (ts j).index = id
    · simp [find_active_in, remove_found, hj]
    · have ih := find_remove_eq ts id rest
      cases hf : find_active_in ts id rest with
      | none =>
        simp [find_active_in, remove_found, hj, hf]
        simpa [hf] using ih
      | some i =>
        simp [find_active_in, remove_found, hj, hf, List.eraseIdx]
        simpa [hf] using ih

theorem remove_found_sublist (ts : Nat → timeout_params) (id : Nat) :
    ∀ l : List Nat, (remove_found ts id l).Sublist l
  | [] => List.Sublist.refl []
  | j :: rest => by
    by_cases hj : (ts j).index = id
    · simp only [remove_found, if_pos hj]
      exact List.sublist_cons_self j rest
    · simp only [remove_found, if_neg hj]
      exact List.cons_sublist_cons.mpr (remove_found_sublist ts id rest)

theorem remove_found_eq_of_not_mem (ts : Nat → timeout_params) (id : Nat) :
    ∀ l : List Nat, (∀ j ∈ l, (ts j).index = j) → id ∉ l →
      remove_found ts id l = l
  | [], _, _ => rfl
  | j :: rest, hidx, hnm => by
    have hj : (ts j).index = j := hidx j (List.mem_cons_self j rest)
    have hne : j ≠ id := fun h => hnm (h ▸ List.mem_cons_self j rest)
    simp [remove_found, hj, hne]
    exact remove_found_eq_of_not_mem ts id rest
      (fun k hk => hidx k (List.mem_cons_of_mem j hk))
      (fun h => hnm (List.mem_cons_of_mem j h))

theorem not_mem_remove_found (ts : Nat → timeout_params) (id : Nat) :
    ∀ l : List Nat, (∀ j ∈ l, (ts j).index = j) → l.Nodup →
      id ∉ remove_found ts id l
  | [], _, _ => List.not_mem_nil id
  | j :: rest, hidx, hnd => by
    have hj : (ts j).index = j := hidx j (List.mem_cons_self j rest)
    by_cases hje : j = id
    · subst hje
      simp [remove_found, hj]
      exact hnd.not_mem
    · simp [remove_found, hj, hje]
      refine ⟨fun h => hje h.symm, ?_⟩
      exact not_mem_remove_found ts id rest
        (fun k hk => hidx k (List.mem_cons_of_mem j hk)) hnd.of_cons

theorem mem_remove_found_of_ne (ts : Nat → timeout_params) (id : Nat) :
    ∀ l : List Nat, ∀ k ∈ l, (ts k).index = k → k ≠ id →
      k ∈ remove_found ts id l
  | [], k, hk, _, _ => absurd hk (List.not_mem_nil k)
  | j :: rest, k, hk, hik, hne => by
    by_cases hj : (ts j).index = id
    · have hkj : k ≠ j := by
        intro he
        apply hne
        rw [he] at hik ⊢
        rw [hik] at hj
        exact hj
      simp only [remove_found, if_pos hj]
      rcases List.mem_cons.mp hk with he | hm
      · exact absurd he hkj
      · exact hm
    · simp only [remove_found, if_neg hj]
      rcases List.mem_cons.mp hk with he | hm
      · rw [he]
        exact List.mem_cons_self j (remove_found ts id rest)
      · exact List.mem_cons_of_mem j (mem_remove_found_of_ne ts id rest k hm hik hne)

theorem enable_insert_pos_le (ts : Nat → timeout_params) (fin_time : Int)
    (id : Nat) : ∀ l : List Nat, enable_insert_pos ts fin_time id l ≤ l.length
  | [] => Nat.le_refl 0
  | j :: rest => by
    by_cases h1 : fin_time < (ts j).fin_time
    · simp only [enable_insert_pos, if_pos h1]
      exact Nat.zero_le _
    · by_cases h2 : fin_time = (ts j).fin_time ∧ id < (ts j).index
      · simp only [enable_insert_pos, if_neg h1, if_pos h2]
        exact Nat.zero_le _
      · simp only [enable_insert_pos, if_neg h1, if_neg h2, List.length_cons]
        exact Nat.succ_le_succ (enable_insert_pos_le ts fin_time id rest)

theorem enable_insert_pos_congr (ts ts' : Nat → timeout_params)
    (fin_time : Int) (id : Nat) :
    ∀ l : List Nat, (∀ j ∈ l, ts j = ts' j) →
      enable_insert_pos ts fin_time id l = enable_insert_pos ts' fin_time id l
  | [], _ => rfl
  | j :: rest, h => by
    have hj : ts j = ts' j := h j (List.mem_cons_self j rest)
    have ih := enable_insert_pos_congr ts ts' fin_time id rest
      (fun k hk => h k (List.mem_cons_of_mem j hk))
    simp only [enable_insert_pos, hj, ih]

theorem nodup_insertIdx (a : Nat) :
    ∀ (n : Nat) (l : List Nat), n ≤ l.length → a ∉ l → l.Nodup →
      (l.insertIdx n a).Nodup
  | 0, l, _, hnm, hnd => by
    rw [List.insertIdx_zero]
    exact List.nodup_cons.mpr ⟨hnm, hnd⟩
  | n + 1, [], h, _, _ => by simp at h
  | n + 1, j :: rest, h, hnm, hnd => by
    rw [List.insertIdx_succ_cons]
    rcases List.nodup_cons.mp hnd with ⟨hjr, hr⟩
    refine List.nodup_cons.mpr ⟨?_, ?_⟩
    · intro hmem
      rcases (List.mem_insertIdx (by simpa using Nat.le_of_succ_le_succ h)).mp hmem with he | hm
      · exact hnm (he ▸ List.mem_cons_self j rest)
      · exact hjr hm
    · exact nodup_insertIdx a n rest (Nat.le_of_succ_le_succ h)
        (fun hm => hnm (List.mem_cons_of_mem j hm)) hr

theorem count_insertIdx_self (a : Nat) :
    ∀ (n : Nat) (l : List Nat), n ≤ l.length →
      (l.insertIdx n a).count a = l.count a + 1
  | 0, l, _ => by
    rw [List.insertIdx_zero]
    simp [List.count_cons]
  | n + 1, [], h => by simp at h
  | n + 1, j :: rest, h => by
    rw [List.insertIdx_succ_cons]
    simp only [List.count_cons,
      count_insertIdx_self a n rest (Nat.le_of_succ_le_succ h)]
    omega

theorem queueLt_iff (ts : Nat → timeout_params) (j k : Nat) :
    queueLt ts j k ↔ ((ts j).fin_time < (ts k).fin_time ∨
      ((ts j).fin_time = (ts k).fin_time ∧ (ts j).index < (ts k).index)) :=
  Iff.rfl

/-- Central ordering lemma: inserting `id` at the position located by the
source's scan keeps the queue strictly sorted, provided the key of `id` is
`(fin_time, id)`, every queued entry's `index` equals its id, and `id` is not
already queued. -/
theorem pairwise_insertIdx_scan (ts : Nat → timeout_params) (fin_time : Int)
    (id : Nat) (hfin : (ts id).fin_time = fin_time) (hid : (ts id).index = id) :
    ∀ l : List Nat, l.Pairwise (queueLt ts) → id ∉ l →
      (∀ j ∈ l, (ts j).index = j) →
      (l.insertIdx (enable_insert_pos ts fin_time id l) id).Pairwise (queueLt ts)
  | [], _, _, _ => by
    simp [enable_insert_pos, List.insertIdx_zero]
  | j :: rest, hpw, hnm, hidx => by
    rcases List.pairwise_cons.mp hpw with ⟨hjall, hrest⟩
    have hj : (ts j).index = j := hidx j (List.mem_cons_self j rest)
    have hne : j ≠ id := fun h => hnm (h ▸ List.mem_cons_self j rest)
    by_cases h1 : fin_time < (ts j).fin_time
    · simp only [enable_insert_pos, if_pos h1, List.insertIdx_zero]
      refine List.pairwise_cons.mpr ⟨?_, hpw⟩
      intro b hb
      have hidj : queueLt ts id j := by
        rw [queueLt_iff, hfin]
        exact Or.inl h1
      rcases List.mem_cons.mp hb with he | hm
      · exact he ▸ hidj
      · exact keyLt_trans hidj (hjall b hm)
    · by_cases h2 : fin_time = (ts j).fin_time ∧ id < (ts j).index
      · simp only [enable_insert_pos, if_neg h1, if_pos h2, List.insertIdx_zero]
        refine List.pairwise_cons.mpr ⟨?_, hpw⟩
        intro b hb
        have hidj : queueLt ts id j := by
          rw [queueLt_iff, hfin, hid]
          exact Or.inr ⟨h2.1, h2.2⟩
        rcases List.mem_cons.mp hb with he | hm
        · exact he ▸ hidj
        · exact keyLt_trans hidj (hjall b hm)
      · simp only [enable_insert_pos, if_neg h1, if_neg h2,
          List.insertIdx_succ_cons]
        have hpos := enable_insert_pos_le ts fin_time id rest
        refine List.pairwise_cons.mpr ⟨?_, ?_⟩
        · intro b hb
          rcases (List.mem_insertIdx hpos).mp hb with he | hm
          · rw [he, queueLt_iff, hfin, hid, hj]
            rcases lt_or_eq_of_le (not_lt.mp h1) with hlt | heq
            · exact Or.inl hlt
            · refine Or.inr ⟨heq, ?_⟩
              have hnid : ¬ id < j := fun hij => h2 ⟨heq.symm, by rw [hj]; exact hij⟩
              omega
          · exact hjall b hm
        · exact pairwise_insertIdx_scan ts fin_time id hfin hid rest hrest
            (fun h => hnm (List.mem_cons_of_mem j h))
            (fun k hk => hidx k (List.mem_cons_of_mem j hk))

theorem enable_timeout_timeouts (id : Nat) (now fin_time : Int) (m : MuxState) :
    (enable_timeout id now fin_time m).timeouts = fun j =>
      if j = id then
        { m.timeouts id with
          indicator := false, start_time := now, fin_time := fin_time }
      else m.timeouts j := by
  unfold enable_timeout find_active_timeout
  cases hf : find_active_in m.timeouts id m.active with
  | none => simp [insert_timeout]
  | some i => simp [insert_timeout, remove_timeout_index]

theorem enable_timeout_init (id : Nat) (now fin_time : Int) (m : MuxState) :
    (enable_timeout id now fin_time m).all_timeouts_initialized =
      m.all_timeouts_initialized := by
  unfold enable_timeout find_active_timeout
  cases hf : find_active_in m.timeouts id m.active with
  | none => simp [insert_timeout]
  | some i => simp [insert_timeout, remove_timeout_index]

theorem enable_timeout_active (id : Nat) (now fin_time : Int) (m : MuxState) :
    (enable_timeout id now fin_time m).active =
      (remove_found m.timeouts id m.active).insertIdx
        (enable_insert_pos m.timeouts fin_time id
          (remove_found m.timeouts id m.active)) id := by
  have h := find_remove_eq m.timeouts id m.active
  unfold enable_timeout find_active_timeout
  cases hf : find_active_in m.timeouts id m.active with
  | none =>
    rw [hf] at h
    simp only at h
    simp [insert_timeout, ← h]
  | some i =>
    rw [hf] at h
    simp only at h
    simp [insert_timeout, remove_timeout_index, h]

theorem enable_timeout_fields (id : Nat) (now fin_time : Int) (m : MuxState) :
    (enable_timeout id now fin_time m).timeouts id =
      { m.timeouts id with
        indicator := false, start_time := now, fin_time := fin_time } := by
  rw [enable_timeout_timeouts]
  simp

theorem enable_timeout_timeouts_ne (id : Nat) (now fin_time : Int)
    (m : MuxState) (j : Nat) (hne : j ≠ id) :
    (enable_timeout id now fin_time m).timeouts j = m.timeouts j := by
  rw [enable_timeout_timeouts]
  simp [hne]

/-- Queue invariants are preserved by the core `enable_timeout`, under the
source's asserted precondition that the id is registered (and hence a valid
registry slot). -/
theorem WF_enable_timeout (id : Nat) (now fin_time : Int) (m : MuxState)
    (hWF : WF m) (hid : id < MAX_TIMEOUTS)
    (hreg : (m.timeouts id).timeout_handler ≠ none) :
    WF (enable_timeout id now fin_time m) := by
  obtain ⟨hpw, hnd, hmem, _, hidx⟩ := hWF
  have hidm : ∀ j ∈ m.active, (m.timeouts j).index = j :=
    fun j hj => hidx j (hmem j hj).2
  set ts := m.timeouts with hts
  set l1 := remove_found ts id m.active with hl1
  have hsub : l1.Sublist m.active := remove_found_sublist ts id m.active
  have hpw1 : l1.Pairwise (queueLt ts) := List.Pairwise.sublist hsub hpw
  have hnd1 : l1.Nodup := List.Nodup.sublist hsub hnd
  have hnm : id ∉ l1 := not_mem_remove_found ts id m.active hidm hnd
  have hmem1 : ∀ j ∈ l1, (ts j).timeout_handler ≠ none ∧ j < MAX_TIMEOUTS :=
    fun j hj => hmem j (hsub.subset hj)
  set ts' := (enable_timeout id now fin_time m).timeouts with hts'
  have hts'eq : ts' = fun j =>
      if j = id then
        { ts id with indicator := false, start_time := now, fin_time := fin_time }
      else ts j := enable_timeout_timeouts id now fin_time m
  have hts'ne : ∀ j, j ≠ id → ts' j = ts j := by
    intro j hj
    rw [hts'eq]
    simp [hj]
  have hts'id_fin : (ts' id).fin_time = fin_time := by rw [hts'eq]; simp
  have hts'id_idx : (ts' id).index = id := by
    rw [hts'eq]
    simp
    exact hidx id hid
  have hts'id_h : (ts' id).timeout_handler = (ts id).timeout_handler := by
    rw [hts'eq]; simp
  have hpw1' : l1.Pairwise (queueLt ts') := by
    refine List.Pairwise.imp_of_mem ?_ hpw1
    intro a b ha hb hab
    have hna : a ≠ id := fun h => hnm (h ▸ ha)
    have hnb : b ≠ id := fun h => hnm (h ▸ hb)
    rw [queueLt_iff, hts'ne a hna, hts'ne b hnb]
    rw [queueLt_iff] at hab
    exact hab
  have hidx1' : ∀ j ∈ l1, (ts' j).index = j := by
    intro j hj
    have hj' : j ≠ id := fun h => hnm (h ▸ hj)
    rw [hts'ne j hj']
    exact hidm j (hsub.subset hj)
  have hcongr : enable_insert_pos ts fin_time id l1 =
      enable_insert_pos ts' fin_time id l1 := by
    refine enable_insert_pos_congr ts ts' fin_time id l1 ?_
    intro j hj
    exact (hts'ne j (fun h => hnm (h ▸ hj))).symm
  have hact : (enable_timeout id now fin_time m).active =
      l1.insertIdx (enable_insert_pos ts' fin_time id l1) id := by
    rw [enable_timeout_active, ← hcongr]
  have hpos := enable_insert_pos_le ts' fin_time id l1
  refine ⟨?_, ?_, ?_, ?_, ?_⟩
  · rw [hact, ← hts']
    exact pairwise_insertIdx_scan ts' fin_time id hts'id_fin hts'id_idx l1
      hpw1' hnm hidx1'
  · rw [hact]
    exact nodup_insertIdx id _ l1 hpos hnm hnd1
  · rw [hact, ← hts']
    intro j hj
    rcases (List.mem_insertIdx hpos).mp hj with he | hm
    · subst he
      rw [hts'id_h]
      exact ⟨hreg, hid⟩
    · have hj' : j ≠ id := fun h => hnm (h ▸ hm)
      rw [hts'ne j hj']
      exact hmem1 j hm
  · have hnodup : (enable_timeout id now fin_time m).active.Nodup := by
      rw [hact]
      exact nodup_insertIdx id _ l1 hpos hnm hnd1
    have hbound : ∀ j ∈ (enable_timeout id now fin_time m).active,
        j < MAX_TIMEOUTS := by
      rw [hact]
      intro j hj
      rcases (List.mem_insertIdx hpos).mp hj with he | hm
      · exact he ▸ hid
      · exact (hmem1 j hm).2
    have hsubr : (enable_timeout id now fin_time m).active ⊆
        List.range MAX_TIMEOUTS :=
      fun x hx => List.mem_range.mpr (hbound x hx)
    have := (List.subperm_of_subset hnodup hsubr).length_le
    unfold num_active_timeouts
    simpa using this
  · intro j hj
    by_cases hje : j = id
    · subst hje
      rw [← hts', hts'id_idx]
    · rw [← hts', hts'ne j hje]
      exact hidx j hj

theorem disable_alarm_mux (b : Bool) (w : World) :
    (disable_alarm b w).mux = w.mux := by
  unfold disable_alarm setitimer
  split <;> rfl

theorem disable_alarm_clock (b : Bool) (w : World) :
    (disable_alarm b w).clock = w.clock := by
  unfold disable_alarm setitimer
  split <;> rfl

theorem disable_alarm_clock_reads (b : Bool) (w : World) :
    (disable_alarm b w).clock_reads = w.clock_reads := by
  unfold disable_alarm setitimer
  split <;> rfl

theorem disable_alarm_fired_log (b : Bool) (w : World) :
    (disable_alarm b w).fired_log = w.fired_log := by
  unfold disable_alarm setitimer
  split <;> rfl

theorem disable_alarm_timer_log (b : Bool) (w : World) :
    (disable_alarm b w).timer_log = w.timer_log ++
      (if b || num_active_timeouts w.mux > 0 then [((0 : Int), (0 : Int))]
       else []) := by
  unfold disable_alarm setitimer
  split <;> simp_all

theorem schedule_alarm_mux (t : Int) (w : World) :
    (schedule_alarm t w).mux = w.mux := by
  unfold schedule_alarm setitimer
  cases h : w.mux.active <;> simp

theorem schedule_alarm_clock (t : Int) (w : World) :
    (schedule_alarm t w).clock = w.clock := by
  unfold schedule_alarm setitimer
  cases h : w.mux.active <;> simp

theorem schedule_alarm_clock_reads (t : Int) (w : World) :
    (schedule_alarm t w).clock_reads = w.clock_reads := by
  unfold schedule_alarm setitimer
  cases h : w.mux.active <;> simp

theorem schedule_alarm_fired_log (t : Int) (w : World) :
    (schedule_alarm t w).fired_log = w.fired_log := by
  unfold schedule_alarm setitimer
  cases h : w.mux.active <;> simp

theorem schedule_alarm_nil (t : Int) (w : World) (h : w.mux.active = []) :
    schedule_alarm t w = w := by
  unfold schedule_alarm
  rw [h]

theorem schedule_alarm_cons (t : Int) (w : World) (j : Nat) (rest : List Nat)
    (h : w.mux.active = j :: rest) :
    (schedule_alarm t w).timer_log =
      w.timer_log ++ [sched_value t (w.mux.timeouts j)] := by
  unfold schedule_alarm sched_value setitimer
  rw [h]

theorem sched_value_ne_zero (now : Int) (e : timeout_params) :
    sched_value now e ≠ (0, 0) := by
  unfold sched_value
  by_cases h : (TimestampDifference now e.fin_time).1 = 0 ∧
      (TimestampDifference now e.fin_time).2 = 0
  · simp [h]
  · simp only [if_neg h]
    intro hc
    exact h ⟨congrArg Prod.fst hc, congrArg Prod.snd hc⟩

theorem sched_value_of_due (now : Int) (e : timeout_params)
    (h : e.fin_time ≤ now) : sched_value now e = (0, 1) := by
  unfold sched_value TimestampDifference
  have hd : e.fin_time - now ≤ 0 := by omega
  simp [hd]

theorem WF_of_active_sublist (m : MuxState) (l : List Nat) (hWF : WF m)
    (hsub : l.Sublist m.active) : WF { m with active := l } := by
  obtain ⟨hpw, hnd, hmem, hlen, hidx⟩ := hWF
  exact ⟨List.Pairwise.sublist hsub hpw, List.Nodup.sublist hsub hnd,
    fun j hj => hmem j (hsub.subset hj),
    le_trans (by simpa [num_active_timeouts] using hsub.length_le) hlen, hidx⟩

/-- Indicator bits play no part in the queue invariants, so flipping one
preserves them. -/
theorem WF_set_indicator (m : MuxState) (id : Nat) (b : Bool) (hWF : WF m) :
    WF { m with timeouts := fun j =>
          if j = id then { m.timeouts id with indicator := b }
          else m.timeouts j } := by
  obtain ⟨hpw, hnd, hmem, hlen, hidx⟩ := hWF
  have hfin : ∀ j, ((fun j => if j = id then { m.timeouts id with indicator := b }
      else m.timeouts j) j).fin_time = (m.timeouts j).fin_time := by
    intro j
    by_cases h : j = id <;> simp [h]
  have hix : ∀ j, ((fun j => if j = id then { m.timeouts id with indicator := b }
      else m.timeouts j) j).index = (m.timeouts j).index := by
    intro j
    by_cases h : j = id <;> simp [h]
  have hha : ∀ j, ((fun j => if j = id then { m.timeouts id with indicator := b }
      else m.timeouts j) j).timeout_handler = (m.timeouts j).timeout_handler := by
    intro j
    by_cases h : j = id <;> simp [h]
  refine ⟨?_, hnd, ?_, hlen, ?_⟩
  · refine List.Pairwise.imp_of_mem ?_ hpw
    intro a c _ _ hac
    rw [queueLt_iff, hfin, hfin, hix, hix]
    rw [queueLt_iff] at hac
    exact hac
  · intro j hj
    rw [hha]
    exact hmem j hj
  · intro j hj
    rw [hix]
    exact hidx j hj

theorem disable_timeout_mux_active (id : Nat) (k : Bool) (w : World) :
    (disable_timeout id k w).mux.active =
      remove_found w.mux.timeouts id w.mux.active := by
  have h := find_remove_eq w.mux.timeouts id w.mux.active
  unfold disable_timeout find_active_timeout
  simp only [disable_alarm_mux, disable_alarm_clock, disable_alarm_clock_reads,
    disable_alarm_fired_log]
  cases hf : find_active_in w.mux.timeouts id w.mux.active with
  | none =>
    rw [hf] at h
    simp only at h
    split_ifs <;>
      simp [schedule_alarm_mux, GetCurrentTimestamp, remove_timeout_index, ← h]
  | some i =>
    rw [hf] at h
    simp only at h
    split_ifs <;>
      simp [schedule_alarm_mux, GetCurrentTimestamp, remove_timeout_index, ← h]

theorem disable_timeout_mux_timeouts (id : Nat) (k : Bool) (w : World) :
    (disable_timeout id k w).mux.timeouts =
      (if k then w.mux.timeouts
       else fun j =>
         if j = id then { w.mux.timeouts id with indicator := false }
         else w.mux.timeouts j) := by
  unfold disable_timeout find_active_timeout
  simp only [disable_alarm_mux, disable_alarm_clock, disable_alarm_clock_reads,
    disable_alarm_fired_log]
  cases hf : find_active_in w.mux.timeouts id w.mux.active with
  | none =>
    split_ifs <;>
      simp [schedule_alarm_mux, GetCurrentTimestamp, remove_timeout_index]
  | some i =>
    split_ifs <;>
      simp [schedule_alarm_mux, GetCurrentTimestamp, remove_timeout_index]

theorem disable_timeout_mux_init (id : Nat) (k : Bool) (w : World) :
    (disable_timeout id k w).mux.all_timeouts_initialized =
      w.mux.all_timeouts_initialized := by
  unfold disable_timeout find_active_timeout
  simp only [disable_alarm_mux, disable_alarm_clock, disable_alarm_clock_reads,
    disable_alarm_fired_log]
  cases hf : find_active_in w.mux.timeouts id w.mux.active with
  | none =>
    split_ifs <;>
      simp [schedule_alarm_mux, GetCurrentTimestamp, remove_timeout_index]
  | some i =>
    split_ifs <;>
      simp [schedule_alarm_mux, GetCurrentTimestamp, remove_timeout_index]

theorem WF_of_fields (m m' : MuxState) (hWF : WF m)
    (ht : m'.timeouts = m.timeouts) (ha : m'.active = m.active) : WF m' := by
  unfold WF num_active_timeouts at hWF ⊢
  rw [ht, ha]
  exact hWF

theorem enable_timeout_after_mux (id : Nat) (d : Int) (w : World) :
    (enable_timeout_after id d w).mux =
      enable_timeout id (w.clock w.clock_reads)
        (TimestampTzPlusMilliseconds (w.clock w.clock_reads) d) w.mux := by
  unfold enable_timeout_after
  simp [GetCurrentTimestamp, schedule_alarm_mux, disable_alarm_mux,
    disable_alarm_clock, disable_alarm_clock_reads]

theorem enable_timeout_at_mux (id : Nat) (t : Int) (w : World) :
    (enable_timeout_at id t w).mux =
      enable_timeout id (w.clock w.clock_reads) t w.mux := by
  unfold enable_timeout_at
  simp [GetCurrentTimestamp, schedule_alarm_mux, disable_alarm_mux,
    disable_alarm_clock, disable_alarm_clock_reads]

theorem enable_timeout_at_clock (id : Nat) (t : Int) (w : World) :
    (enable_timeout_at id t w).clock = w.clock := by
  unfold enable_timeout_at
  simp [GetCurrentTimestamp, schedule_alarm_clock, disable_alarm_clock]

theorem enable_timeout_at_clock_reads (id : Nat) (t : Int) (w : World) :
    (enable_timeout_at id t w).clock_reads = w.clock_reads + 1 := by
  unfold enable_timeout_at
  simp [GetCurrentTimestamp, schedule_alarm_clock_reads,
    disable_alarm_clock_reads]

theorem WF_disable_timeout (id : Nat) (k : Bool) (w : World)
    (hWF : WF w.mux) : WF (disable_timeout id k w).mux := by
  have ha := disable_timeout_mux_active id k w
  have ht := disable_timeout_mux_timeouts id k w
  have hbase : WF { w.mux with
      active := remove_found w.mux.timeouts id w.mux.active } :=
    WF_of_active_sublist w.mux _ hWF (remove_found_sublist _ _ _)
  by_cases hk : k
  · refine WF_of_fields _ _ hbase ?_ ?_
    · rw [ht, if_pos hk]
    · rw [ha]
  · refine WF_of_fields _ _
      (WF_set_indicator { w.mux with
        active := remove_found w.mux.timeouts id w.mux.active } id false hbase)
      ?_ ?_
    · rw [ht, if_neg hk]
    · rw [ha]

theorem count_enable_timeout (id : Nat) (now fin_time : Int) (m : MuxState)
    (hWF : WF m) :
    (enable_timeout id now fin_time m).active.count id = 1 := by
  obtain ⟨_, hnd, hmem, _, hidx⟩ := hWF
  have hidm : ∀ j ∈ m.active, (m.timeouts j).index = j :=
    fun j hj => hidx j (hmem j hj).2
  have hnm := not_mem_remove_found m.timeouts id m.active hidm hnd
  rw [enable_timeout_active]
  rw [count_insertIdx_self id _ _ (enable_insert_pos_le _ _ _ _)]
  rw [List.count_eq_zero.mpr hnm]

theorem mem_enable_timeout_self (id : Nat) (now fin_time : Int)
    (m : MuxState) : id ∈ (enable_timeout id now fin_time m).active := by
  rw [enable_timeout_active]
  exact (List.mem_insertIdx (enable_insert_pos_le _ _ _ _)).mpr (Or.inl rfl)

theorem mem_enable_timeout_of_mem (id : Nat) (now fin_time : Int)
    (m : MuxState) (hWF : WF m) (j : Nat) (hj : j ∈ m.active) (hne : j ≠ id) :
    j ∈ (enable_timeout id now fin_time m).active := by
  obtain ⟨_, _, hmem, _, hidx⟩ := hWF
  rw [enable_timeout_active]
  refine (List.mem_insertIdx (enable_insert_pos_le _ _ _ _)).mpr (Or.inr ?_)
  exact mem_remove_found_of_ne m.timeouts id m.active j hj
    (hidx j (hmem j hj).2) hne

theorem WF_remove_match (id : Nat) (m : MuxState) (hWF : WF m) :
    WF (match find_active_timeout id m with
        | some i => remove_timeout_index i m
        | none => m) := by
  cases hf : find_active_timeout id m with
  | none => exact hWF
  | some i =>
    exact WF_of_active_sublist m (m.active.eraseIdx i) hWF
      (List.eraseIdx_sublist m.active i)

theorem WF_disable_timeouts_go :
    ∀ (ps : List DisableTimeoutParams) (m : MuxState), WF m →
      WF (disable_timeouts_go ps m)
  | [], m, h => h
  | p :: rest, m, h => by
    simp only [disable_timeouts_go]
    by_cases hk : p.keep_indicator
    · simp only [if_pos hk]
      exact WF_disable_timeouts_go rest _ (WF_remove_match p.id m h)
    · simp only [if_neg hk]
      exact WF_disable_timeouts_go rest _
        (WF_set_indicator _ p.id false (WF_remove_match p.id m h))

theorem enable_timeout_handler_stable (id : Nat) (now fin_time : Int)
    (m : MuxState) (j : Nat) :
    ((enable_timeout id now fin_time m).timeouts j).timeout_handler =
      (m.timeouts j).timeout_handler := by
  rw [enable_timeout_timeouts]
  by_cases h : j = id <;> simp [h]

theorem WF_enable_timeouts_go (now : Int) :
    ∀ (ps : List EnableTimeoutParams) (w : World), WF w.mux →
      (∀ p ∈ ps, (w.mux.timeouts p.id).timeout_handler ≠ none ∧
        p.id < MAX_TIMEOUTS) →
      WF (except_world (enable_timeouts_go now ps w)).mux
  | [], w, h, _ => h
  | p :: rest, w, h, hreg => by
    have hp := hreg p (List.mem_cons_self p rest)
    simp only [enable_timeouts_go]
    by_cases h0 : p.type = TMPARAM_AFTER
    · simp only [if_pos h0]
      refine WF_enable_timeouts_go now rest _
        (WF_enable_timeout p.id now _ w.mux h hp.2 hp.1) ?_
      intro q hq
      simp only [enable_timeout_handler_stable]
      exact hreg q (List.mem_cons_of_mem p hq)
    · simp only [if_neg h0]
      by_cases h1 : p.type = TMPARAM_AT
      · simp only [if_pos h1]
        refine WF_enable_timeouts_go now rest _
          (WF_enable_timeout p.id now _ w.mux h hp.2 hp.1) ?_
        intro q hq
        simp only [enable_timeout_handler_stable]
        exact hreg q (List.mem_cons_of_mem p hq)
      · simp only [if_neg h1]
        exact h

theorem disable_all_timeouts_active (k : Bool) (w : World) :
    (disable_all_timeouts k w).mux.active = [] := by
  unfold disable_all_timeouts setitimer
  split_ifs <;> rfl

theorem disable_all_timeouts_timer_log (k : Bool) (w : World) :
    (disable_all_timeouts k w).timer_log = w.timer_log ++ [((0 : Int), (0 : Int))] := by
  unfold disable_all_timeouts setitimer
  split_ifs <;> rfl

theorem disable_all_timeouts_timeouts (k : Bool) (w : World) :
    (disable_all_timeouts k w).mux.timeouts =
      (if k then w.mux.timeouts
       else fun i =>
         if i < MAX_TIMEOUTS then { w.mux.timeouts i with indicator := false }
         else w.mux.timeouts i) := by
  unfold disable_all_timeouts setitimer
  split_ifs <;> rfl

theorem WF_disable_all_timeouts (k : Bool) (w : World) (hWF : WF w.mux) :
    WF (disable_all_timeouts k w).mux := by
  obtain ⟨_, _, _, _, hidx⟩ := hWF
  refine ⟨?_, ?_, ?_, ?_, ?_⟩
  · rw [disable_all_timeouts_active]
    exact List.Pairwise.nil
  · rw [disable_all_timeouts_active]
    exact List.nodup_nil
  · rw [disable_all_timeouts_active]
    intro j hj
    exact absurd hj (List.not_mem_nil j)
  · simp [num_active_timeouts, disable_all_timeouts_active]
  · intro j hj
    rw [disable_all_timeouts_timeouts]
    by_cases hk : k
    · simp only [if_pos hk]
      exact hidx j hj
    · simp only [if_neg hk, if_pos hj]
      exact hidx j hj

theorem disable_timeouts_mux (ps : List DisableTimeoutParams) (w : World) :
    (disable_timeouts ps w).mux = disable_timeouts_go ps w.mux := by
  unfold disable_timeouts
  simp only [disable_alarm_mux, disable_alarm_clock, disable_alarm_clock_reads,
    disable_alarm_fired_log]
  split_ifs <;> simp [schedule_alarm_mux, GetCurrentTimestamp]

theorem enable_timeouts_result_WF (ps : List EnableTimeoutParams) (w : World)
    (hWF : WF w.mux)
    (hreg : ∀ p ∈ ps, (w.mux.timeouts p.id).timeout_handler ≠ none ∧
      p.id < MAX_TIMEOUTS) :
    ∀ w', (enable_timeouts ps w = .ok w' ∨ enable_timeouts ps w = .error w') →
      WF w'.mux := by
  intro w' hres
  have hgo := WF_enable_timeouts_go
    ((disable_alarm (ps.length > 1) w).clock
      (disable_alarm (ps.length > 1) w).clock_reads) ps
    { disable_alarm (ps.length > 1) w with
      clock_reads := (disable_alarm (ps.length > 1) w).clock_reads + 1 }
    (by simpa [disable_alarm_mux] using hWF)
    (by simpa [disable_alarm_mux] using hreg)
  unfold enable_timeouts at hres
  simp only [GetCurrentTimestamp] at hres
  rcases hres with hok | herr
  · rcases hg : enable_timeouts_go
        ((disable_alarm (ps.length > 1) w).clock
          (disable_alarm (ps.length > 1) w).clock_reads) ps
        { disable_alarm (ps.length > 1) w with
          clock_reads := (disable_alarm (ps.length > 1) w).clock_reads + 1 }
      with w1 | w1
    · rw [hg] at hok
      simp at hok
    · rw [hg] at hok
      simp at hok
      rw [hg] at hgo
      rw [← hok]
      simpa [schedule_alarm_mux, except_world] using hgo
  · rcases hg : enable_timeouts_go
        ((disable_alarm (ps.length > 1) w).clock
          (disable_alarm (ps.length > 1) w).clock_reads) ps
        { disable_alarm (ps.length > 1) w with
          clock_reads := (disable_alarm (ps.length > 1) w).clock_reads + 1 }
      with w1 | w1
    · rw [hg] at herr
      simp at herr
      rw [hg] at hgo
      rw [← herr]
      simpa [except_world] using hgo
    · rw [hg] at herr
      simp at herr

/-- C1: every mutator operation (`enable_timeout_after`, `enable_timeout_at`,
`enable_timeouts`, `disable_timeout`, `disable_timeouts`,
`disable_all_timeouts`), run from a state satisfying the queue invariants
with the asserted preconditions (module initialized, enabled/disabled ids
registered), yields a state that again satisfies the invariants: strict
lexicographic `(fin_time, index)` ordering of the active queue, no duplicate
id in the queue, a non-null handler for every queued entry, and
`0 ≤ num_active_timeouts ≤ MAX_TIMEOUTS` (the lower bound holds because
`num_active_timeouts` is a natural number of the model). -/
theorem C1_mutator_invariants
    (w : World) (id : Nat) (delay_ms t : Int) (k : Bool)
    (ps : List EnableTimeoutParams) (dps : List DisableTimeoutParams)
    (hWF : WF w.mux) (hinit : w.mux.all_timeouts_initialized = true) :
    ((w.mux.timeouts id).timeout_handler ≠ none → id < MAX_TIMEOUTS →
      WF (enable_timeout_after id delay_ms w).mux) ∧
    ((w.mux.timeouts id).timeout_handler ≠ none → id < MAX_TIMEOUTS →
      WF (enable_timeout_at id t w).mux) ∧
    ((∀ p ∈ ps, (w.mux.timeouts p.id).timeout_handler ≠ none ∧
        p.id < MAX_TIMEOUTS) →
      ∀ w', (enable_timeouts ps w = .ok w' ∨ enable_timeouts ps w = .error w') →
        WF w'.mux) ∧
    ((w.mux.timeouts id).timeout_handler ≠ none →
      WF (disable_timeout id k w).mux) ∧
    ((∀ p ∈ dps, (w.mux.timeouts p.id).timeout_handler ≠ none) →
      WF (disable_timeouts dps w).mux) ∧
    WF (disable_all_timeouts k w).mux := by
  refine ⟨?_, ?_, ?_, ?_, ?_, ?_⟩
  · intro hreg hid
    rw [enable_timeout_after_mux]
    exact WF_enable_timeout id _ _ w.mux hWF hid hreg
  · intro hreg hid
    rw [enable_timeout_at_mux]
    exact WF_enable_timeout id _ _ w.mux hWF hid hreg
  · intro hreg
    exact enable_timeouts_result_WF ps w hWF hreg
  · intro _
    exact WF_disable_timeout id k w hWF
  · intro _
    rw [disable_timeouts_mux]
    exact WF_disable_timeouts_go dps w.mux hWF
  · exact WF_disable_all_timeouts k w hWF

/-- Witness for C1 at a concrete initialized world with registered reasons. -/
theorem C1_mutator_invariants_witness :
    (WF wExample.mux ∧ wExample.mux.all_timeouts_initialized = true) ∧
    (WF (enable_timeout_after 2 500 wExample).mux ∧
     WF (disable_timeout 3 false wExample).mux ∧
     WF (disable_all_timeouts false wExample).mux) := by
  have h := C1_mutator_invariants wExample 2 500 1100000 false
    [⟨3, TMPARAM_AFTER, 50, 0⟩] [⟨3, false⟩] (by decide) (by decide)
  have h3 : (wExample.mux.timeouts 3).timeout_handler ≠ none := by decide
  refine ⟨⟨by decide, by decide⟩, ?_, ?_, ?_⟩
  · exact h.1 (by decide) (by decide)
  · have h4 := C1_mutator_invariants wExample 3 500 1100000 false
      [⟨3, TMPARAM_AFTER, 50, 0⟩] [⟨3, false⟩] (by decide) (by decide)
    exact h4.2.2.2.1 h3
  · exact h.2.2.2.2.2

theorem MuxState_ext (a b : MuxState) (h1 : a.timeouts = b.timeouts)
    (h2 : a.all_timeouts_initialized = b.all_timeouts_initialized)
    (h3 : a.active = b.active) : a = b := by
  cases a; cases b; simp_all

/-- C2: enabling a registered id at `fin_time` t1 and then again at t2
(`enable_timeout_at` twice) leaves exactly one queue entry for the id, with
`fin_time = t2`, `start_time` equal to the clock value read by the second
enable, and `indicator = false`: a second enable reschedules instead of
duplicating. -/
theorem C2_reschedule (w : World) (id : Nat) (t1 t2 : Int)
    (hWF : WF w.mux) (hreg : (w.mux.timeouts id).timeout_handler ≠ none)
    (hid : id < MAX_TIMEOUTS) :
    (enable_timeout_at id t2 (enable_timeout_at id t1 w)).mux.active.count id
        = 1 ∧
    ((enable_timeout_at id t2 (enable_timeout_at id t1 w)).mux.timeouts
        id).fin_time = t2 ∧
    ((enable_timeout_at id t2 (enable_timeout_at id t1 w)).mux.timeouts
        id).start_time =
      (enable_timeout_at id t1 w).clock (enable_timeout_at id t1 w).clock_reads ∧
    ((enable_timeout_at id t2 (enable_timeout_at id t1 w)).mux.timeouts
        id).indicator = false := by
  have hWF1 : WF (enable_timeout_at id t1 w).mux := by
    rw [enable_timeout_at_mux]
    exact WF_enable_timeout id _ t1 w.mux hWF hid hreg
  refine ⟨?_, ?_, ?_, ?_⟩
  · rw [enable_timeout_at_mux]
    exact count_enable_timeout id _ t2 _ hWF1
  · rw [enable_timeout_at_mux, enable_timeout_fields]
  · rw [enable_timeout_at_mux, enable_timeout_fields]
  · rw [enable_timeout_at_mux, enable_timeout_fields]

/-- Witness for C2: rescheduling reason 2 from 1100000 to 1050000 in the
example world. -/
theorem C2_reschedule_witness :
    (WF wExample.mux ∧
     (wExample.mux.timeouts 2).timeout_handler ≠ none ∧ 2 < MAX_TIMEOUTS) ∧
    (enable_timeout_at 2 1050000 (enable_timeout_at 2 1100000
        wExample)).mux.active.count 2 = 1 :=
  ⟨⟨by decide, by decide, by decide⟩,
   (C2_reschedule wExample 2 1100000 1050000 (by decide) (by decide)
     (by decide)).1⟩

/-- C3: `disable_timeout` is idempotent on the multiplexer state (registry
array and active queue), and disabling an id that is not queued is not an
error: the queue is unchanged and, when `keep_indicator` is false, the
entry's indicator is cleared. -/
theorem C3_disable_idempotent (w : World) (id : Nat) (k : Bool)
    (hWF : WF w.mux) (hreg : (w.mux.timeouts id).timeout_handler ≠ none) :
    (disable_timeout id k (disable_timeout id k w)).mux =
      (disable_timeout id k w).mux ∧
    (id ∉ w.mux.active →
      (disable_timeout id k w).mux.active = w.mux.active) ∧
    (k = false → ((disable_timeout id k w).mux.timeouts id).indicator = false)
    := by
  obtain ⟨hpw, hnd, hmem, hlen, hidx⟩ := hWF
  have hidm : ∀ j ∈ w.mux.active, (w.mux.timeouts j).index = j :=
    fun j hj => hidx j (hmem j hj).2
  have hnm1 : id ∉ remove_found w.mux.timeouts id w.mux.active :=
    not_mem_remove_found w.mux.timeouts id w.mux.active hidm hnd
  refine ⟨?_, ?_, ?_⟩
  · apply MuxState_ext
    · rw [disable_timeout_mux_timeouts, disable_timeout_mux_timeouts]
      by_cases hk : k
      · simp [hk]
      · simp only [if_neg hk]
        funext j
        by_cases hj : j = id <;> simp [hj]
    · rw [disable_timeout_mux_init]
    · rw [disable_timeout_mux_active, disable_timeout_mux_active]
      apply remove_found_eq_of_not_mem
      · intro j hj
        have hjne : j ≠ id := fun h => hnm1 (h ▸ hj)
        have hjact : j ∈ w.mux.active :=
          (remove_found_sublist w.mux.timeouts id w.mux.active).subset hj
        rw [disable_timeout_mux_timeouts]
        by_cases hk : k
        · simp only [if_pos hk]
          exact hidm j hjact
        · simp only [if_neg hk, if_neg hjne]
          exact hidm j hjact
      · exact hnm1
  · intro hn
    rw [disable_timeout_mux_active]
    exact remove_found_eq_of_not_mem w.mux.timeouts id w.mux.active hidm hn
  · intro hk
    rw [disable_timeout_mux_timeouts]
    subst hk
    simp

/-- Witness for C3: disabling armed reason 2 twice in the armed example
world. -/
theorem C3_disable_idempotent_witness :
    (WF wArmed.mux ∧ (wArmed.mux.timeouts 2).timeout_handler ≠ none) ∧
    (disable_timeout 2 false (disable_timeout 2 false wArmed)).mux =
      (disable_timeout 2 false wArmed).mux :=
  ⟨⟨by decide, by decide⟩,
   (C3_disable_idempotent wArmed 2 false (by decide) (by decide)).1⟩

/-- C6: `schedule_alarm(now)` performs no timer programming when the queue is
empty; otherwise it programs the single-shot timer to
`active[0].fin_time − now` as (secs, usecs), rounding an exact (0, 0)
difference up to one microsecond, so the programmed interval is never the
disarming value (0, 0); in particular a head entry with
`fin_time ≤ now` programs (0, 1) instead of cancelling the timer. -/
theorem C6_schedule_alarm (now : Int) (w : World) (j : Nat) (rest : List Nat) :
    (w.mux.active = [] → schedule_alarm now w = w) ∧
    (w.mux.active = j :: rest →
      (schedule_alarm now w).timer_log =
        w.timer_log ++ [sched_value now (w.mux.timeouts j)] ∧
      sched_value now (w.mux.timeouts j) ≠ (0, 0) ∧
      ((w.mux.timeouts j).fin_time ≤ now →
        sched_value now (w.mux.timeouts j) = (0, 1))) := by
  refine ⟨fun h => schedule_alarm_nil now w h, fun h => ⟨?_, ?_, ?_⟩⟩
  · exact schedule_alarm_cons now w j rest h
  · exact sched_value_ne_zero now (w.mux.timeouts j)
  · exact fun hd => sched_value_of_due now (w.mux.timeouts j) hd

/-- Witness for C6: the armed example world's queue head is reason 2 due at
1100000; scheduling at a later time programs the rounded-up 1 µs value. -/
theorem C6_schedule_alarm_witness :
    wArmed.mux.active = 2 :: [3] ∧
    ((schedule_alarm 1200000 wArmed).timer_log =
      wArmed.timer_log ++ [sched_value 1200000 (wArmed.mux.timeouts 2)] ∧
     sched_value 1200000 (wArmed.mux.timeouts 2) ≠ (0, 0) ∧
     ((wArmed.mux.timeouts 2).fin_time ≤ 1200000 →
       sched_value 1200000 (wArmed.mux.timeouts 2) = (0, 1))) :=
  ⟨by decide, (C6_schedule_alarm 1200000 wArmed 2 [3]).2 (by decide)⟩

/-- C7: `get_timeout_indicator(id, reset)` returns the entry's current
indicator; it clears the indicator only when the indicator is set and reset
was requested; whenever it returns false it changes nothing at all. -/
theorem C7_get_timeout_indicator (id : Nat) (reset_indicator : Bool)
    (w : World) :
    (get_timeout_indicator id reset_indicator w).1 =
      (w.mux.timeouts id).indicator ∧
    ((w.mux.timeouts id).indicator = false →
      (get_timeout_indicator id reset_indicator w).2 = w) ∧
    ((w.mux.timeouts id).indicator = true → reset_indicator = false →
      (get_timeout_indicator id reset_indicator w).2 = w) ∧
    ((w.mux.timeouts id).indicator = true → reset_indicator = true →
      (((get_timeout_indicator id reset_indicator w).2.mux.timeouts
          id).indicator = false ∧
       (∀ j, j ≠ id →
         (get_timeout_indicator id reset_indicator w).2.mux.timeouts j =
           w.mux.timeouts j) ∧
       ((get_timeout_indicator id reset_indicator w).2.mux.timeouts
           id).timeout_handler = (w.mux.timeouts id).timeout_handler ∧
       ((get_timeout_indicator id reset_indicator w).2.mux.timeouts
           id).start_time = (w.mux.timeouts id).start_time ∧
       ((get_timeout_indicator id reset_indicator w).2.mux.timeouts
           id).fin_time = (w.mux.timeouts id).fin_time ∧
       ((get_timeout_indicator id reset_indicator w).2.mux.timeouts
           id).index = (w.mux.timeouts id).index ∧
       (get_timeout_indicator id reset_indicator w).2.mux.active =
         w.mux.active ∧
       (get_timeout_indicator id reset_indicator w).2.timer_log =
         w.timer_log ∧
       (get_timeout_indicator id reset_indicator w).2.clock_reads =
         w.clock_reads)) := by
  unfold get_timeout_indicator
  refine ⟨?_, ?_, ?_, ?_⟩
  · by_cases h : (w.mux.timeouts id).indicator <;> simp [h]
  · intro h
    simp [h]
  · intro h hr
    simp [h, hr]
  · intro h hr
    refine ⟨by simp [h, hr], ?_, by simp [h, hr], by simp [h, hr],
      by simp [h, hr], by simp [h, hr], by simp [h, hr], by simp [h, hr],
      by simp [h, hr]⟩
    intro j hj
    simp [h, hr, hj]

/-- Witness for C7: the never-fired reason 5 of the example world returns
false from a resetting read and nothing changes. -/
theorem C7_get_timeout_indicator_witness :
    (wExample.mux.timeouts 5).indicator = false ∧
    ((get_timeout_indicator 5 true wExample).1 =
      (wExample.mux.timeouts 5).indicator ∧
     (get_timeout_indicator 5 true wExample).2 = wExample) :=
  ⟨by decide,
   (C7_get_timeout_indicator 5 true wExample).1,
   (C7_get_timeout_indicator 5 true wExample).2.1 (by decide)⟩

/-- C8: `disable_all_timeouts(keep_indicators)` always programs the OS timer
to zero (even with an empty queue), empties the active queue, clears every
indicator when `keep_indicators` is false, and leaves every entry's handler,
`start_time` and `fin_time` untouched. -/
theorem C8_disable_all_timeouts (k : Bool) (w : World) :
    (disable_all_timeouts k w).timer_log =
      w.timer_log ++ [((0 : Int), (0 : Int))] ∧
    (disable_all_timeouts k w).mux.active = [] ∧
    (k = false → ∀ i, i < MAX_TIMEOUTS →
      ((disable_all_timeouts k w).mux.timeouts i).indicator = false) ∧
    (∀ i, ((disable_all_timeouts k w).mux.timeouts i).timeout_handler =
        (w.mux.timeouts i).timeout_handler ∧
      ((disable_all_timeouts k w).mux.timeouts i).start_time =
        (w.mux.timeouts i).start_time ∧
      ((disable_all_timeouts k w).mux.timeouts i).fin_time =
        (w.mux.timeouts i).fin_time) := by
  refine ⟨disable_all_timeouts_timer_log k w, disable_all_timeouts_active k w,
    ?_, ?_⟩
  · intro hk i hi
    rw [disable_all_timeouts_timeouts]
    subst hk
    simp [hi]
  · intro i
    rw [disable_all_timeouts_timeouts]
    by_cases hk : k
    · simp [hk]
    · by_cases hi : i < MAX_TIMEOUTS <;> simp [hk, hi]

/-- Extra witness for C8 at a concrete armed world. -/
theorem C8_disable_all_timeouts_witness :
    (disable_all_timeouts false wArmed).timer_log =
      wArmed.timer_log ++ [((0 : Int), (0 : Int))] ∧
    (disable_all_timeouts false wArmed).mux.active = [] :=
  ⟨(C8_disable_all_timeouts false wArmed).1,
   (C8_disable_all_timeouts false wArmed).2.1⟩

theorem register_scan_some (ts : Nat → timeout_params) :
    ∀ (fuel start j : Nat), register_scan ts start fuel = some j →
      start ≤ j ∧ j < start + fuel ∧ (ts j).timeout_handler = none ∧
      ∀ i, start ≤ i → i < j → (ts i).timeout_handler ≠ none
  | 0, start, j, hs => by simp [register_scan] at hs
  | fuel + 1, start, j, hs => by
    by_cases hf : (ts start).timeout_handler = none
    · simp only [register_scan, if_pos hf] at hs
      injection hs with hs
      subst hs
      exact ⟨Nat.le_refl start, by omega, hf, fun i h1 h2 => by omega⟩
    · simp only [register_scan, if_neg hf] at hs
      obtain ⟨h1, h2, h3, h4⟩ := register_scan_some ts fuel (start + 1) j hs
      refine ⟨by omega, by omega, h3, ?_⟩
      intro i hi1 hi2
      rcases Nat.eq_or_lt_of_le hi1 with he | hlt
      · rw [← he]
        exact hf
      · exact h4 i hlt hi2

theorem register_scan_none (ts : Nat → timeout_params) :
    ∀ (fuel start : Nat), register_scan ts start fuel = none →
      ∀ i, start ≤ i → i < start + fuel → (ts i).timeout_handler ≠ none
  | 0, start, _, i, h1, h2 => by omega
  | fuel + 1, start, hs, i, h1, h2 => by
    by_cases hf : (ts start).timeout_handler = none
    · simp [register_scan, hf] at hs
    · simp only [register_scan, if_neg hf] at hs
      rcases Nat.eq_or_lt_of_le h1 with he | hlt
      · rw [← he]
        exact hf
      · exact register_scan_none ts fuel (start + 1) hs i hlt (by omega)

/-- C5: `RegisterTimeout(id, handler)`: for `id < USER_TIMEOUT` the handler is
recorded at slot `id` and `id` is returned; for `id = USER_TIMEOUT` the first
free slot of `[USER_TIMEOUT, MAX_TIMEOUTS)` is chosen and returned, and the
call fails fatally when no slot is free; every successful registration leaves
the active queue and `num_active_timeouts` unchanged. -/
theorem C5_RegisterTimeout (w : World) (id hdl : Nat)
    (hinit : w.mux.all_timeouts_initialized = true) :
    (id < USER_TIMEOUT →
      ∃ w', RegisterTimeout id hdl w = .ok (id, w') ∧
        (w'.mux.timeouts id).timeout_handler = some hdl ∧
        (∀ j, j ≠ id → w'.mux.timeouts j = w.mux.timeouts j) ∧
        w'.mux.active = w.mux.active ∧
        num_active_timeouts w'.mux = num_active_timeouts w.mux) ∧
    (id = USER_TIMEOUT →
      ((∃ i, USER_TIMEOUT ≤ i ∧ i < MAX_TIMEOUTS ∧
          (w.mux.timeouts i).timeout_handler = none) →
        ∃ j w', RegisterTimeout id hdl w = .ok (j, w') ∧
          USER_TIMEOUT ≤ j ∧ j < MAX_TIMEOUTS ∧
          (w.mux.timeouts j).timeout_handler = none ∧
          (∀ i, USER_TIMEOUT ≤ i → i < j →
            (w.mux.timeouts i).timeout_handler ≠ none) ∧
          (w'.mux.timeouts j).timeout_handler = some hdl ∧
          w'.mux.active = w.mux.active ∧
          num_active_timeouts w'.mux = num_active_timeouts w.mux) ∧
      ((∀ i, USER_TIMEOUT ≤ i → i < MAX_TIMEOUTS →
          (w.mux.timeouts i).timeout_handler ≠ none) →
        RegisterTimeout id hdl w = .error ())) ∧
    (∀ jr w', RegisterTimeout id hdl w = .ok (jr, w') →
      w'.mux.active = w.mux.active ∧
      num_active_timeouts w'.mux = num_active_timeouts w.mux) := by
  refine ⟨?_, ?_, ?_⟩
  · intro hlt
    have hge : ¬ id ≥ USER_TIMEOUT := by omega
    refine ⟨{ w with mux := { w.mux with
        timeouts := fun k =>
          if k = id then { w.mux.timeouts id with timeout_handler := some hdl }
          else w.mux.timeouts k } }, ?_, by simp, ?_, rfl, rfl⟩
    · simp [RegisterTimeout, hge]
    · intro j hj
      simp [hj]
  · intro hid
    constructor
    · intro hfree
      cases hs : register_scan w.mux.timeouts USER_TIMEOUT
          (MAX_TIMEOUTS - USER_TIMEOUT) with
      | none =>
        obtain ⟨i, hi1, hi2, hi3⟩ := hfree
        exact absurd hi3
          (register_scan_none w.mux.timeouts (MAX_TIMEOUTS - USER_TIMEOUT)
            USER_TIMEOUT hs i hi1 (by omega))
      | some j =>
        obtain ⟨h1, h2, h3, h4⟩ := register_scan_some w.mux.timeouts
          (MAX_TIMEOUTS - USER_TIMEOUT) USER_TIMEOUT j hs
        have hge : id ≥ USER_TIMEOUT := by omega
        refine ⟨j, { w with mux := { w.mux with
            timeouts := fun k =>
              if k = j then { w.mux.timeouts j with timeout_handler := some hdl }
              else w.mux.timeouts k } }, ?_, h1, by omega, h3, h4, by simp,
          rfl, rfl⟩
        simp [RegisterTimeout, hge, hid, hs]
    · intro hfull
      cases hs : register_scan w.mux.timeouts USER_TIMEOUT
          (MAX_TIMEOUTS - USER_TIMEOUT) with
      | none =>
        have hge : id ≥ USER_TIMEOUT := by omega
        simp [RegisterTimeout, hge, hid, hs]
      | some j =>
        obtain ⟨h1, h2, h3, _⟩ := register_scan_some w.mux.timeouts
          (MAX_TIMEOUTS - USER_TIMEOUT) USER_TIMEOUT j hs
        exact absurd h3 (hfull j h1 (by omega))
  · intro jr w' hok
    by_cases hge : id ≥ USER_TIMEOUT
    · cases hs : register_scan w.mux.timeouts USER_TIMEOUT
          (MAX_TIMEOUTS - USER_TIMEOUT) with
      | none =>
        simp [RegisterTimeout, hge, hs] at hok
      | some j =>
        simp [RegisterTimeout, hge, hs] at hok
        rw [← hok.2]
        exact ⟨rfl, rfl⟩
    · simp [RegisterTimeout, hge] at hok
      rw [← hok.2]
      exact ⟨rfl, rfl⟩

/-- Witness for C5: registering predefined reason 1 and allocating a user
reason in the example world. -/
theorem C5_RegisterTimeout_witness :
    wExample.mux.all_timeouts_initialized = true ∧
    (∃ w', RegisterTimeout 1 9 wExample = .ok (1, w') ∧
      (w'.mux.timeouts 1).timeout_handler = some 9 ∧
      (∀ j, j ≠ 1 → w'.mux.timeouts j = wExample.mux.timeouts j) ∧
      w'.mux.active = wExample.mux.active ∧
      num_active_timeouts w'.mux = num_active_timeouts wExample.mux) :=
  ⟨by decide, (C5_RegisterTimeout wExample 1 9 (by decide)).1 (by decide)⟩

theorem handle_sig_alarm_loop_nil (now : Int) (w : World)
    (h : w.mux.active = []) : handle_sig_alarm_loop now w = (now, w) := by
  conv_lhs => rw [handle_sig_alarm_loop.eq_def]
  split
  · rfl
  · rename_i j rest hc
    rw [h] at hc
    cases hc

theorem handle_sig_alarm_loop_cons_due (now : Int) (w : World) (j : Nat)
    (rest : List Nat) (h : w.mux.active = j :: rest)
    (hd : now ≥ (w.mux.timeouts j).fin_time) :
    handle_sig_alarm_loop now w =
      handle_sig_alarm_loop (w.clock w.clock_reads)
        { fire_step j w with clock_reads := w.clock_reads + 1 } := by
  conv_lhs => rw [handle_sig_alarm_loop.eq_def]
  split
  · rename_i hc
    rw [h] at hc
    cases hc
  · rename_i j' rest' hc
    rw [h] at hc
    injection hc with hj hr
    subst hj
    subst hr
    rw [if_pos hd]
    rfl

theorem handle_sig_alarm_loop_not_due (now : Int) (w : World) (j : Nat)
    (rest : List Nat) (h : w.mux.active = j :: rest)
    (hd : ¬ now ≥ (w.mux.timeouts j).fin_time) :
    handle_sig_alarm_loop now w = (now, w) := by
  conv_lhs => rw [handle_sig_alarm_loop.eq_def]
  split
  · rfl
  · rename_i j' rest' hc
    rw [h] at hc
    injection hc with hj hr
    subst hj
    subst hr
    rw [if_neg hd]

theorem WF_fire_step (j : Nat) (w : World) (hWF : WF w.mux) :
    WF (fire_step j w).mux := by
  have hbase : WF { w.mux with active := w.mux.active.eraseIdx 0 } :=
    WF_of_active_sublist w.mux _ hWF (List.eraseIdx_sublist w.mux.active 0)
  refine WF_of_fields _ _
    (WF_set_indicator { w.mux with active := w.mux.active.eraseIdx 0 } j true
      hbase) rfl rfl

/-- Behavior of the signal handler's firing loop: some prefix of the active
queue is popped and fired in order, and the prefix is exactly the due one:
the i-th fired entry was due against the clock value in effect when it was
checked (the `now` argument for i = 0, the (i-1)-th re-read afterwards), and
whenever entries remain the loop stopped because the new head was not yet due
at the final clock value.  The registry entries outside the fired prefix are
untouched, every fired entry's indicator ends up true, no entry's `fin_time`
changes, one clock read is consumed per fired entry, and the timer log and
the queue invariants are untouched. -/
theorem handle_sig_alarm_loop_spec :
    ∀ (n : Nat) (now : Int) (w : World), w.mux.active.length ≤ n →
      WF w.mux →
      ∃ k, k ≤ w.mux.active.length ∧
        (handle_sig_alarm_loop now w).2.mux.active = w.mux.active.drop k ∧
        (handle_sig_alarm_loop now w).2.mux.all_timeouts_initialized =
          w.mux.all_timeouts_initialized ∧
        (handle_sig_alarm_loop now w).2.fired_log =
          w.fired_log ++ w.mux.active.take k ∧
        (handle_sig_alarm_loop now w).2.timer_log = w.timer_log ∧
        (handle_sig_alarm_loop now w).2.clock = w.clock ∧
        (∀ i, i ∉ w.mux.active.take k →
          (handle_sig_alarm_loop now w).2.mux.timeouts i = w.mux.timeouts i) ∧
        (∀ i ∈ w.mux.active.take k,
          ((handle_sig_alarm_loop now w).2.mux.timeouts i).indicator = true) ∧
        WF (handle_sig_alarm_loop now w).2.mux ∧
        (handle_sig_alarm_loop now w).2.clock_reads = w.clock_reads + k ∧
        (handle_sig_alarm_loop now w).1 =
          (if k = 0 then now else w.clock (w.clock_reads + (k - 1))) ∧
        (∀ i, i < k → ∃ hi : i < w.mux.active.length,
          (w.mux.timeouts (w.mux.active.get ⟨i, hi⟩)).fin_time ≤
            (if i = 0 then now else w.clock (w.clock_reads + (i - 1)))) ∧
        (∀ j rest, (handle_sig_alarm_loop now w).2.mux.active = j :: rest →
          (w.mux.timeouts j).fin_time > (handle_sig_alarm_loop now w).1) ∧
        (∀ i, ((handle_sig_alarm_loop now w).2.mux.timeouts i).fin_time =
          (w.mux.timeouts i).fin_time)
  | n, now, w, hlen, hWF => by
    cases hact : w.mux.active with
    | nil =>
      rw [handle_sig_alarm_loop_nil now w hact]
      refine ⟨0, by simp [hact], by simp [hact], rfl, by simp [hact], rfl, rfl,
        fun i _ => rfl, by simp [hact], hWF, by simp, by simp, ?_, ?_,
        fun i => rfl⟩
      · intro i hik
        exact absurd hik (Nat.not_lt_zero i)
      · intro j rest hc
        simp only at hc
        rw [hact] at hc
        cases hc
    | cons j rest =>
      by_cases hd : now ≥ (w.mux.timeouts j).fin_time
      · cases n with
        | zero => rw [hact] at hlen; simp at hlen
        | succ n =>
          rw [handle_sig_alarm_loop_cons_due now w j rest hact hd]
          set w2 : World :=
            { fire_step j w with clock_reads := w.clock_reads + 1 } with hw2
          have hw2act : w2.mux.active = rest := by
            simp [hw2, fire_step, hact]
          have hw2ts : w2.mux.timeouts = fun i =>
              if i = j then { w.mux.timeouts j with indicator := true }
              else w.mux.timeouts i := rfl
          have hw2fin : ∀ i, (w2.mux.timeouts i).fin_time =
              (w.mux.timeouts i).fin_time := by
            intro i
            rw [hw2ts]
            by_cases hij : i = j <;> simp [hij]
          have hw2clock : w2.clock = w.clock := rfl
          have hw2reads : w2.clock_reads = w.clock_reads + 1 := rfl
          have hw2len : w2.mux.active.length ≤ n := by
            rw [hw2act]
            have := hlen
            rw [hact] at this
            simpa using this
          obtain ⟨k, hk, hdrop, hinit, hfired, htimer, hclock, hframe, hind,
            hWFf, hreads, hfnow, hdue, hstop, hfpres⟩ :=
            handle_sig_alarm_loop_spec n (w.clock w.clock_reads) w2 hw2len
              (WF_fire_step j w hWF)
          rw [hw2act] at hk hdrop hfired hframe hind hdue
          refine ⟨k + 1, ?_, ?_, ?_, ?_, ?_, ?_, ?_, ?_, hWFf, ?_, ?_, ?_, ?_,
            ?_⟩
          · simpa using Nat.succ_le_succ hk
          · rw [hdrop]
            rfl
          · rw [hinit]
            rfl
          · rw [hfired, List.take_succ_cons]
            simp [hw2, fire_step]
          · rw [htimer]
            rfl
          · rw [hclock, hw2clock]
          · intro i hi
            rw [List.take_succ_cons] at hi
            have hij : i ≠ j := fun he => hi (he ▸ List.mem_cons_self _ _)
            have hit : i ∉ rest.take k :=
              fun hm => hi (List.mem_cons_of_mem _ hm)
            rw [hframe i hit, hw2ts]
            simp [hij]
          · intro i hi
            rw [List.take_succ_cons] at hi
            rcases List.mem_cons.mp hi with he | hm
            · subst he
              by_cases hjt : i ∈ rest.take k
              · exact hind i hjt
              · rw [hframe i hjt, hw2ts]
                simp
            · exact hind i hm
          · rw [hreads, hw2reads]
            omega
          · by_cases hk0 : k = 0
            · subst hk0
              rw [hfnow]
              simp
            · rw [hfnow, if_neg hk0, hw2clock, hw2reads]
              have hkk : w.clock_reads + 1 + (k - 1) =
                  w.clock_reads + (k + 1 - 1) := by omega
              rw [hkk]
              simp
          · intro i hik
            cases i with
            | zero =>
              refine ⟨by simp, ?_⟩
              have hget : (j :: rest).get ⟨0, by simp⟩ = j := rfl
              simp only [hget]
              simpa using hd
            | succ i2 =>
              have hik2 : i2 < k := by omega
              obtain ⟨hi2, hle⟩ := hdue i2 hik2
              rw [hw2fin, hw2clock, hw2reads] at hle
              refine ⟨by simp; omega, ?_⟩
              rw [List.get_cons_succ]
              by_cases hi0 : i2 = 0
              · subst hi0
                rw [if_pos rfl] at hle
                simpa using hle
              · rw [if_neg hi0] at hle
                have h1 : w.clock_reads + 1 + (i2 - 1) = w.clock_reads + i2 :=
                  by omega
                rw [h1] at hle
                have h2 : ¬ (i2 + 1 = 0) := by omega
                rw [if_neg h2, Nat.add_sub_cancel]
                exact hle
          · intro j2 rest2 hc
            have := hstop j2 rest2 hc
            rwa [hw2fin j2] at this
          · intro i
            rw [hfpres i, hw2fin i]
      · rw [handle_sig_alarm_loop_not_due now w j rest hact hd]
        refine ⟨0, by simp, by simp [hact], rfl, by simp [hact], rfl, rfl,
          fun i _ => rfl, by simp, hWF, by simp, by simp, ?_, ?_,
          fun i => rfl⟩
        · intro i hik
          exact absurd hik (Nat.not_lt_zero i)
        · intro j2 rest2 hc
          simp only at hc
          rw [hact] at hc
          injection hc with h1 h2
          rw [← h1]
          simp only
          omega

/-- C4: on a timer-interrupt delivery with a non-empty active queue, the
handler pops entries from the queue head while the head is due, marking each
popped entry's indicator and invoking its handler, re-reading the clock
after each; the popped entries are exactly the due leading segment: the i-th
fired entry was due against the i-th clock reading of the invocation, and
whenever entries remain the loop stopped because the new head was not due at
the final reading — so all due timeouts fire, in ascending
`(fin_time, index)` order (a leading segment of the sorted queue);
afterwards `schedule_alarm(now)` runs: it programs nothing when the queue
emptied and otherwise programs exactly one non-disarming interval. -/
theorem C4_handle_sig_alarm (w : World) (hWF : WF w.mux)
    (hne : w.mux.active ≠ []) :
    ∃ k, k ≤ w.mux.active.length ∧
      (handle_sig_alarm w).mux.active = w.mux.active.drop k ∧
      (handle_sig_alarm w).fired_log = w.fired_log ++ w.mux.active.take k ∧
      (w.mux.active.take k).Pairwise (queueLt w.mux.timeouts) ∧
      (∀ i ∈ w.mux.active.take k,
        ((handle_sig_alarm w).mux.timeouts i).indicator = true) ∧
      (handle_sig_alarm w).clock_reads = w.clock_reads + (k + 1) ∧
      (∀ i, i < k → ∃ hi : i < w.mux.active.length,
        (w.mux.timeouts (w.mux.active.get ⟨i, hi⟩)).fin_time ≤
          w.clock (w.clock_reads + i)) ∧
      (∀ j rest, (handle_sig_alarm w).mux.active = j :: rest →
        (w.mux.timeouts j).fin_time > w.clock (w.clock_reads + k)) ∧
      ((handle_sig_alarm w).mux.active = [] →
        (handle_sig_alarm w).timer_log = w.timer_log) ∧
      (∀ j rest, (handle_sig_alarm w).mux.active = j :: rest →
        ∃ v, v ≠ ((0 : Int), (0 : Int)) ∧
          (handle_sig_alarm w).timer_log = w.timer_log ++ [v]) := by
  have hpos : num_active_timeouts w.mux > 0 := by
    unfold num_active_timeouts
    exact List.length_pos.mpr hne
  have heq : handle_sig_alarm w =
      schedule_alarm
        (handle_sig_alarm_loop (w.clock w.clock_reads)
          { w with clock_reads := w.clock_reads + 1 }).1
        (handle_sig_alarm_loop (w.clock w.clock_reads)
          { w with clock_reads := w.clock_reads + 1 }).2 := by
    unfold handle_sig_alarm
    rw [if_pos hpos]
    rfl
  obtain ⟨k, hk, hdrop, _, hfired, htimer, _, _, hind, _, hreads, hfnow,
    hdue, hstop, _⟩ :=
    handle_sig_alarm_loop_spec
      ({ w with clock_reads := w.clock_reads + 1 }).mux.active.length
      (w.clock w.clock_reads) { w with clock_reads := w.clock_reads + 1 }
      (Nat.le_refl _) hWF
  simp only at hreads hfnow hdue hstop
  refine ⟨k, hk, ?_, ?_, ?_, ?_, ?_, ?_, ?_, ?_, ?_⟩
  · rw [heq, schedule_alarm_mux]
    exact hdrop
  · rw [heq, schedule_alarm_fired_log]
    exact hfired
  · exact List.Pairwise.sublist (List.take_sublist k w.mux.active) hWF.1
  · intro i hi
    rw [heq, schedule_alarm_mux]
    exact hind i hi
  · rw [heq, schedule_alarm_clock_reads, hreads]
    omega
  · intro i hik
    obtain ⟨hi, hle⟩ := hdue i hik
    refine ⟨hi, ?_⟩
    by_cases hi0 : i = 0
    · subst hi0
      rw [if_pos rfl] at hle
      simpa using hle
    · rw [if_neg hi0] at hle
      have h1 : w.clock_reads + 1 + (i - 1) = w.clock_reads + i := by omega
      rw [h1] at hle
      exact hle
  · intro j rest hc
    rw [heq, schedule_alarm_mux] at hc
    have hs := hstop j rest hc
    rw [hfnow] at hs
    by_cases hk0 : k = 0
    · subst hk0
      rw [if_pos rfl] at hs
      simpa using hs
    · rw [if_neg hk0] at hs
      have h1 : w.clock_reads + 1 + (k - 1) = w.clock_reads + k := by omega
      rw [h1] at hs
      exact hs
  · intro hnil
    rw [heq] at hnil ⊢
    rw [schedule_alarm_mux] at hnil
    rw [schedule_alarm_nil _ _ hnil]
    exact htimer
  · intro j rest hcons
    rw [heq] at hcons ⊢
    rw [schedule_alarm_mux] at hcons
    refine ⟨sched_value
      (handle_sig_alarm_loop (w.clock w.clock_reads)
        { w with clock_reads := w.clock_reads + 1 }).1
      ((handle_sig_alarm_loop (w.clock w.clock_reads)
        { w with clock_reads := w.clock_reads + 1 }).2.mux.timeouts j),
      sched_value_ne_zero _ _, ?_⟩
    rw [schedule_alarm_cons _ _ j rest hcons]
    rw [htimer]

/-- Witness for C4: the armed example world (queue `[2, 3]`, both due by the
interrupt-time clock) fires both reasons in order. -/
theorem C4_handle_sig_alarm_witness :
    (WF wArmed.mux ∧ wArmed.mux.active ≠ []) ∧
    (∃ k, k ≤ wArmed.mux.active.length ∧
      (handle_sig_alarm wArmed).mux.active = wArmed.mux.active.drop k ∧
      (handle_sig_alarm wArmed).fired_log =
        wArmed.fired_log ++ wArmed.mux.active.take k ∧
      (wArmed.mux.active.take k).Pairwise (queueLt wArmed.mux.timeouts) ∧
      (∀ i ∈ wArmed.mux.active.take k,
        ((handle_sig_alarm wArmed).mux.timeouts i).indicator = true) ∧
      (handle_sig_alarm wArmed).clock_reads = wArmed.clock_reads + (k + 1) ∧
      (∀ i, i < k → ∃ hi : i < wArmed.mux.active.length,
        (wArmed.mux.timeouts (wArmed.mux.active.get ⟨i, hi⟩)).fin_time ≤
          wArmed.clock (wArmed.clock_reads + i)) ∧
      (∀ j rest, (handle_sig_alarm wArmed).mux.active = j :: rest →
        (wArmed.mux.timeouts j).fin_time >
          wArmed.clock (wArmed.clock_reads + k)) ∧
      ((handle_sig_alarm wArmed).mux.active = [] →
        (handle_sig_alarm wArmed).timer_log = wArmed.timer_log) ∧
      (∀ j rest, (handle_sig_alarm wArmed).mux.active = j :: rest →
        ∃ v, v ≠ ((0 : Int), (0 : Int)) ∧
          (handle_sig_alarm wArmed).timer_log = wArmed.timer_log ++ [v])) :=
  ⟨⟨by decide, by decide⟩, C4_handle_sig_alarm wArmed (by decide) (by decide)⟩

theorem mem_enable_timeout_iff (id : Nat) (now fin_time : Int) (m : MuxState)
    (hWF : WF m) (j : Nat) (hne : j ≠ id) :
    j ∈ (enable_timeout id now fin_time m).active ↔ j ∈ m.active := by
  constructor
  · intro hj
    rw [enable_timeout_active] at hj
    rcases (List.mem_insertIdx (enable_insert_pos_le _ _ _ _)).mp hj with he | hm
    · exact absurd he hne
    · exact (remove_found_sublist m.timeouts id m.active).subset hm
  · intro hj
    exact mem_enable_timeout_of_mem id now fin_time m hWF j hj hne

theorem enable_timeouts_go_append (now : Int) :
    ∀ (pre qs : List EnableTimeoutParams) (w : World),
      enable_timeouts_go now (pre ++ qs) w =
        (match enable_timeouts_go now pre w with
         | .ok w1 => enable_timeouts_go now qs w1
         | .error w1 => .error w1)
  | [], qs, w => rfl
  | p :: rest, qs, w => by
    simp only [List.cons_append, enable_timeouts_go]
    by_cases h0 : p.type = TMPARAM_AFTER
    · simp only [if_pos h0]
      exact enable_timeouts_go_append now rest qs _
    · simp only [if_neg h0]
      by_cases h1 : p.type = TMPARAM_AT
      · simp only [if_pos h1]
        exact enable_timeouts_go_append now rest qs _
      · simp only [if_neg h1]


/-- Behavior of the batched-enable loop on well-typed, distinct entries: it
succeeds, touches no clock or logs, enables every listed entry (correct
`fin_time` per type, `start_time = now`, indicator cleared, id queued), and
leaves every unlisted registry entry and queue membership unchanged. -/
theorem enable_timeouts_go_ok (now : Int) :
    ∀ (ps : List EnableTimeoutParams) (w : World), WF w.mux →
      (∀ p ∈ ps, p.type = TMPARAM_AFTER ∨ p.type = TMPARAM_AT) →
      (∀ p ∈ ps, (w.mux.timeouts p.id).timeout_handler ≠ none ∧
        p.id < MAX_TIMEOUTS) →
      (ps.map (fun p => p.id)).Nodup →
      ∃ w1, enable_timeouts_go now ps w = .ok w1 ∧
        w1.clock = w.clock ∧ w1.clock_reads = w.clock_reads ∧
        w1.timer_log = w.timer_log ∧ w1.fired_log = w.fired_log ∧
        w1.mux.all_timeouts_initialized = w.mux.all_timeouts_initialized ∧
        (∀ i, i ∉ ps.map (fun p => p.id) →
          w1.mux.timeouts i = w.mux.timeouts i) ∧
        (∀ i, i ∉ ps.map (fun p => p.id) →
          (i ∈ w1.mux.active ↔ i ∈ w.mux.active)) ∧
        (∀ p ∈ ps,
          (w1.mux.timeouts p.id).fin_time =
            (if p.type = TMPARAM_AFTER then
              TimestampTzPlusMilliseconds now p.delay_ms
            else p.fin_time) ∧
          (w1.mux.timeouts p.id).start_time = now ∧
          (w1.mux.timeouts p.id).indicator = false ∧
          p.id ∈ w1.mux.active)
  | [], w, _, _, _, _ => ⟨w, rfl, rfl, rfl, rfl, rfl, rfl,
      fun _ _ => rfl, fun _ _ => Iff.rfl,
      fun p hp => absurd hp (List.not_mem_nil p)⟩
  | p :: rest, w, hWF, htypes, hreg, hnd => by
    have hp := hreg p (List.mem_cons_self p rest)
    have hndr : (rest.map (fun q => q.id)).Nodup := by
      simpa using List.Nodup.of_cons (by simpa using hnd)
    have hpnr : p.id ∉ rest.map (fun q => q.id) :=
      (List.nodup_cons.mp (by simpa using hnd)).1
    have hstep : ∀ fin_time : Int,
        (∀ q ∈ rest,
          (({ w with mux := enable_timeout p.id now fin_time w.mux
            }).mux.timeouts q.id).timeout_handler ≠ none ∧
          q.id < MAX_TIMEOUTS) := by
      intro fin_time q hq
      have := hreg q (List.mem_cons_of_mem p hq)
      simpa [enable_timeout_handler_stable] using this
    rcases htypes p (List.mem_cons_self p rest) with h0 | h1
    · obtain ⟨w1, hok, hclock, hreads, htlog, hflog, hinit, hframet, hframea,
        hentries⟩ := enable_timeouts_go_ok now rest
        ({ w with mux := enable_timeout p.id now (TimestampTzPlusMilliseconds now p.delay_ms) w.mux })
        (WF_enable_timeout p.id now _ w.mux hWF hp.2 hp.1)
        (fun q hq => htypes q (List.mem_cons_of_mem p hq))
        (hstep (TimestampTzPlusMilliseconds now p.delay_ms)) hndr
      refine ⟨w1, ?_, hclock, hreads, htlog, hflog, ?_, ?_, ?_, ?_⟩
      · simp only [enable_timeouts_go, if_pos h0]
        exact hok
      · rw [hinit]
        exact enable_timeout_init p.id now _ w.mux
      · intro i hi
        have hine : i ≠ p.id := fun he => hi (he ▸ List.mem_cons_self _ _)
        have hir : i ∉ rest.map (fun q => q.id) :=
          fun hm => hi (List.mem_cons_of_mem _ hm)
        rw [hframet i hir]
        exact enable_timeout_timeouts_ne p.id now _ w.mux i hine
      · intro i hi
        have hine : i ≠ p.id := fun he => hi (he ▸ List.mem_cons_self _ _)
        have hir : i ∉ rest.map (fun q => q.id) :=
          fun hm => hi (List.mem_cons_of_mem _ hm)
        rw [hframea i hir]
        exact mem_enable_timeout_iff p.id now _ w.mux hWF i hine
      · intro q hq
        rcases List.mem_cons.mp hq with he | hm
        · subst he
          have hts := hframet q.id hpnr
          refine ⟨?_, ?_, ?_, ?_⟩
          · rw [hts, enable_timeout_fields, if_pos h0]
          · rw [hts, enable_timeout_fields]
          · rw [hts, enable_timeout_fields]
          · exact (hframea q.id hpnr).mpr
              (mem_enable_timeout_self q.id now _ w.mux)
        · exact hentries q hm
    · obtain ⟨w1, hok, hclock, hreads, htlog, hflog, hinit, hframet, hframea,
        hentries⟩ := enable_timeouts_go_ok now rest
        ({ w with mux := enable_timeout p.id now p.fin_time w.mux })
        (WF_enable_timeout p.id now _ w.mux hWF hp.2 hp.1)
        (fun q hq => htypes q (List.mem_cons_of_mem p hq))
        (hstep p.fin_time) hndr
      have h0 : p.type ≠ TMPARAM_AFTER := by
        rw [h1]
        decide
      refine ⟨w1, ?_, hclock, hreads, htlog, hflog, ?_, ?_, ?_, ?_⟩
      · simp only [enable_timeouts_go, if_neg h0, if_pos h1]
        exact hok
      · rw [hinit]
        exact enable_timeout_init p.id now _ w.mux
      · intro i hi
        have hine : i ≠ p.id := fun he => hi (he ▸ List.mem_cons_self _ _)
        have hir : i ∉ rest.map (fun q => q.id) :=
          fun hm => hi (List.mem_cons_of_mem _ hm)
        rw [hframet i hir]
        exact enable_timeout_timeouts_ne p.id now _ w.mux i hine
      · intro i hi
        have hine : i ≠ p.id := fun he => hi (he ▸ List.mem_cons_self _ _)
        have hir : i ∉ rest.map (fun q => q.id) :=
          fun hm => hi (List.mem_cons_of_mem _ hm)
        rw [hframea i hir]
        exact mem_enable_timeout_iff p.id now _ w.mux hWF i hine
      · intro q hq
        rcases List.mem_cons.mp hq with he | hm
        · subst he
          have hts := hframet q.id hpnr
          refine ⟨?_, ?_, ?_, ?_⟩
          · rw [hts, enable_timeout_fields, if_neg h0]
          · rw [hts, enable_timeout_fields]
          · rw [hts, enable_timeout_fields]
          · exact (hframea q.id hpnr).mpr
              (mem_enable_timeout_self q.id now _ w.mux)
        · exact hentries q hm

/-- C9: `enable_timeouts(list, count)` passes `multi_insert = (count > 1)` to
`disable_alarm` (visible as the conditional (0,0) programming below), reads
the clock exactly once, enables each entry with `fin_time = now + delay_ms`
for type AFTER and the given `fin_time` for type AT, and on the normal path
calls `schedule_alarm` exactly once after all entries: exactly one further
timer programming (none if the queue somehow ended empty). -/
theorem C9_enable_timeouts (ps : List EnableTimeoutParams) (w : World)
    (hWF : WF w.mux)
    (htypes : ∀ p ∈ ps, p.type = TMPARAM_AFTER ∨ p.type = TMPARAM_AT)
    (hreg : ∀ p ∈ ps, (w.mux.timeouts p.id).timeout_handler ≠ none ∧
      p.id < MAX_TIMEOUTS)
    (hnd : (ps.map (fun p => p.id)).Nodup) :
    ∃ w', enable_timeouts ps w = .ok w' ∧
      w'.clock_reads = w.clock_reads + 1 ∧
      (∀ p ∈ ps,
        (w'.mux.timeouts p.id).fin_time =
          (if p.type = TMPARAM_AFTER then
            TimestampTzPlusMilliseconds (w.clock w.clock_reads) p.delay_ms
          else p.fin_time) ∧
        (w'.mux.timeouts p.id).start_time = w.clock w.clock_reads ∧
        (w'.mux.timeouts p.id).indicator = false ∧
        p.id ∈ w'.mux.active) ∧
      (w'.mux.active = [] →
        w'.timer_log = w.timer_log ++
          (if ps.length > 1 || num_active_timeouts w.mux > 0 then
            [((0 : Int), (0 : Int))] else [])) ∧
      (∀ j rest, w'.mux.active = j :: rest →
        ∃ v, v ≠ ((0 : Int), (0 : Int)) ∧
          w'.timer_log = w.timer_log ++
            (if ps.length > 1 || num_active_timeouts w.mux > 0 then
              [((0 : Int), (0 : Int))] else []) ++ [v]) := by
  have hnow0 : (disable_alarm (ps.length > 1) w).clock
      ((disable_alarm (ps.length > 1) w).clock_reads) =
      w.clock w.clock_reads := by
    rw [disable_alarm_clock, disable_alarm_clock_reads]
  obtain ⟨w1, hok, hclock, hreads, htlog, hflog, hinit, hframet, hframea,
    hentries⟩ := enable_timeouts_go_ok
    ((disable_alarm (ps.length > 1) w).clock
      ((disable_alarm (ps.length > 1) w).clock_reads)) ps
    { disable_alarm (ps.length > 1) w with
      clock_reads := (disable_alarm (ps.length > 1) w).clock_reads + 1 }
    (by simpa [disable_alarm_mux] using hWF) htypes
    (by simpa [disable_alarm_mux] using hreg) hnd
  have heq : enable_timeouts ps w =
      (match enable_timeouts_go
          ((disable_alarm (ps.length > 1) w).clock
            ((disable_alarm (ps.length > 1) w).clock_reads)) ps
          { disable_alarm (ps.length > 1) w with
            clock_reads := (disable_alarm (ps.length > 1) w).clock_reads + 1 }
        with
       | .error w1 => .error w1
       | .ok w1 => .ok (schedule_alarm
          ((disable_alarm (ps.length > 1) w).clock
            ((disable_alarm (ps.length > 1) w).clock_reads)) w1)) := by
    unfold enable_timeouts
    rfl
  rw [hok] at heq
  simp only at heq
  refine ⟨_, heq, ?_, ?_, ?_, ?_⟩
  · rw [schedule_alarm_clock_reads, hreads]
    simp [disable_alarm_clock_reads]
  · intro p hp
    have he := hentries p hp
    rw [hnow0] at he
    rw [schedule_alarm_mux]
    exact he
  · intro hnil
    rw [schedule_alarm_mux] at hnil
    rw [schedule_alarm_nil _ _ hnil, htlog]
    simpa using disable_alarm_timer_log (ps.length > 1) w
  · intro j rest hcons
    rw [schedule_alarm_mux] at hcons
    refine ⟨sched_value
      ((disable_alarm (ps.length > 1) w).clock
        ((disable_alarm (ps.length > 1) w).clock_reads))
      (w1.mux.timeouts j), sched_value_ne_zero _ _, ?_⟩
    rw [schedule_alarm_cons _ _ j rest hcons, htlog, List.append_assoc]
    have hd := disable_alarm_timer_log (ps.length > 1) w
    simp only at hd
    rw [hd, List.append_assoc]

/-- Witness for C9: batching one AFTER and one AT entry in the example
world. -/
theorem C9_enable_timeouts_witness :
    (WF wExample.mux ∧
     (∀ p ∈ ([⟨3, TMPARAM_AFTER, 50, 0⟩, ⟨5, TMPARAM_AT, 0, 1010000⟩] :
        List EnableTimeoutParams),
       p.type = TMPARAM_AFTER ∨ p.type = TMPARAM_AT) ∧
     (∀ p ∈ ([⟨3, TMPARAM_AFTER, 50, 0⟩, ⟨5, TMPARAM_AT, 0, 1010000⟩] :
        List EnableTimeoutParams),
       (wExample.mux.timeouts p.id).timeout_handler ≠ none ∧
       p.id < MAX_TIMEOUTS)) ∧
    (∃ w', enable_timeouts
        [⟨3, TMPARAM_AFTER, 50, 0⟩, ⟨5, TMPARAM_AT, 0, 1010000⟩] wExample =
          .ok w' ∧
      w'.clock_reads = wExample.clock_reads + 1 ∧
      (∀ p ∈ ([⟨3, TMPARAM_AFTER, 50, 0⟩, ⟨5, TMPARAM_AT, 0, 1010000⟩] :
          List EnableTimeoutParams),
        (w'.mux.timeouts p.id).fin_time =
          (if p.type = TMPARAM_AFTER then
            TimestampTzPlusMilliseconds
              (wExample.clock wExample.clock_reads) p.delay_ms
          else p.fin_time) ∧
        (w'.mux.timeouts p.id).start_time =
          wExample.clock wExample.clock_reads ∧
        (w'.mux.timeouts p.id).indicator = false ∧
        p.id ∈ w'.mux.active) ∧
      (w'.mux.active = [] →
        w'.timer_log = wExample.timer_log ++
          (if ([⟨3, TMPARAM_AFTER, 50, 0⟩, ⟨5, TMPARAM_AT, 0, 1010000⟩] :
              List EnableTimeoutParams).length > 1 ||
              num_active_timeouts wExample.mux > 0 then
            [((0 : Int), (0 : Int))] else [])) ∧
      (∀ j rest, w'.mux.active = j :: rest →
        ∃ v, v ≠ ((0 : Int), (0 : Int)) ∧
          w'.timer_log = wExample.timer_log ++
            (if ([⟨3, TMPARAM_AFTER, 50, 0⟩, ⟨5, TMPARAM_AT, 0, 1010000⟩] :
                List EnableTimeoutParams).length > 1 ||
                num_active_timeouts wExample.mux > 0 then
              [((0 : Int), (0 : Int))] else []) ++ [v])) :=
  ⟨⟨by decide, by decide, by decide⟩,
   C9_enable_timeouts [⟨3, TMPARAM_AFTER, 50, 0⟩, ⟨5, TMPARAM_AT, 0, 1010000⟩]
     wExample (by decide) (by decide) (by decide) (by decide)⟩

/-- C10: when `enable_timeouts` meets an entry of unknown type at position k,
the entries before k have already been enabled and stay in the queue, the
entries after k are not processed (their registry entries and queue
membership are untouched), and `schedule_alarm` is not reached: the timer log
records only the initial `disable_alarm` programming, leaving the alarm
unprogrammed although the queue may be non-empty — the batch is not
atomic. -/
theorem C10_enable_timeouts_error (w : World)
    (pre post : List EnableTimeoutParams) (bad : EnableTimeoutParams)
    (hWF : WF w.mux)
    (htypes : ∀ p ∈ pre, p.type = TMPARAM_AFTER ∨ p.type = TMPARAM_AT)
    (hreg : ∀ p ∈ pre, (w.mux.timeouts p.id).timeout_handler ≠ none ∧
      p.id < MAX_TIMEOUTS)
    (hnd : (pre.map (fun p => p.id)).Nodup)
    (hbad1 : bad.type ≠ TMPARAM_AFTER) (hbad2 : bad.type ≠ TMPARAM_AT) :
    ∃ w', enable_timeouts (pre ++ bad :: post) w = .error w' ∧
      (∀ p ∈ pre,
        p.id ∈ w'.mux.active ∧
        (w'.mux.timeouts p.id).fin_time =
          (if p.type = TMPARAM_AFTER then
            TimestampTzPlusMilliseconds (w.clock w.clock_reads) p.delay_ms
          else p.fin_time) ∧
        (w'.mux.timeouts p.id).start_time = w.clock w.clock_reads) ∧
      (∀ q ∈ post, q.id ∉ pre.map (fun p => p.id) →
        w'.mux.timeouts q.id = w.mux.timeouts q.id ∧
        (q.id ∈ w'.mux.active ↔ q.id ∈ w.mux.active)) ∧
      w'.timer_log = w.timer_log ++
        (if (pre ++ bad :: post).length > 1 ||
            num_active_timeouts w.mux > 0 then
          [((0 : Int), (0 : Int))] else []) := by
  have hnow0 : (disable_alarm ((pre ++ bad :: post).length > 1) w).clock
      ((disable_alarm ((pre ++ bad :: post).length > 1) w).clock_reads) =
      w.clock w.clock_reads := by
    rw [disable_alarm_clock, disable_alarm_clock_reads]
  obtain ⟨w1, hok, hclock, hreads, htlog, hflog, hinit, hframet, hframea,
    hentries⟩ := enable_timeouts_go_ok
    ((disable_alarm ((pre ++ bad :: post).length > 1) w).clock
      ((disable_alarm ((pre ++ bad :: post).length > 1) w).clock_reads)) pre
    { disable_alarm ((pre ++ bad :: post).length > 1) w with
      clock_reads :=
        (disable_alarm ((pre ++ bad :: post).length > 1) w).clock_reads + 1 }
    (by simpa [disable_alarm_mux] using hWF) htypes
    (by simpa [disable_alarm_mux] using hreg) hnd
  have hbadstep : enable_timeouts_go
      ((disable_alarm ((pre ++ bad :: post).length > 1) w).clock
        ((disable_alarm ((pre ++ bad :: post).length > 1) w).clock_reads))
      (bad :: post) w1 = .error w1 := by
    simp only [enable_timeouts_go, if_neg hbad1, if_neg hbad2]
  have hgo : enable_timeouts_go
      ((disable_alarm ((pre ++ bad :: post).length > 1) w).clock
        ((disable_alarm ((pre ++ bad :: post).length > 1) w).clock_reads))
      (pre ++ bad :: post)
      { disable_alarm ((pre ++ bad :: post).length > 1) w with
        clock_reads :=
          (disable_alarm ((pre ++ bad :: post).length > 1) w).clock_reads + 1 }
      = .error w1 := by
    rw [enable_timeouts_go_append, hok]
    exact hbadstep
  have heq : enable_timeouts (pre ++ bad :: post) w =
      (match enable_timeouts_go
          ((disable_alarm ((pre ++ bad :: post).length > 1) w).clock
            ((disable_alarm ((pre ++ bad :: post).length > 1) w).clock_reads))
          (pre ++ bad :: post)
          { disable_alarm ((pre ++ bad :: post).length > 1) w with
            clock_reads :=
              (disable_alarm ((pre ++ bad :: post).length > 1) w).clock_reads
                + 1 }
        with
       | .error w1 => .error w1
       | .ok w1 => .ok (schedule_alarm
          ((disable_alarm ((pre ++ bad :: post).length > 1) w).clock
            ((disable_alarm ((pre ++ bad :: post).length > 1) w).clock_reads))
          w1)) := by
    unfold enable_timeouts
    rfl
  rw [hgo] at heq
  simp only at heq
  refine ⟨w1, heq, ?_, ?_, ?_⟩
  · intro p hp
    have he := hentries p hp
    rw [hnow0] at he
    exact ⟨he.2.2.2, he.1, he.2.1⟩
  · intro q hq hqn
    refine ⟨?_, ?_⟩
    · rw [hframet q.id hqn]
      simp [disable_alarm_mux]
    · rw [hframea q.id hqn]
      simp [disable_alarm_mux]
  · rw [htlog]
    simpa using
      disable_alarm_timer_log ((pre ++ bad :: post).length > 1) w

/-- Witness for C10: a valid AFTER entry, then an entry of unknown type 7,
then an unprocessed AT entry, in the example world. -/
theorem C10_enable_timeouts_error_witness :
    (WF wExample.mux ∧
     (∀ p ∈ ([⟨3, TMPARAM_AFTER, 50, 0⟩] : List EnableTimeoutParams),
       (wExample.mux.timeouts p.id).timeout_handler ≠ none ∧
       p.id < MAX_TIMEOUTS) ∧
     (⟨5, 7, 0, 0⟩ : EnableTimeoutParams).type ≠ TMPARAM_AFTER) ∧
    (∃ w', enable_timeouts
        ([⟨3, TMPARAM_AFTER, 50, 0⟩] ++ ⟨5, 7, 0, 0⟩ ::
          [⟨2, TMPARAM_AT, 0, 99⟩]) wExample = .error w' ∧
      (∀ p ∈ ([⟨3, TMPARAM_AFTER, 50, 0⟩] : List EnableTimeoutParams),
        p.id ∈ w'.mux.active ∧
        (w'.mux.timeouts p.id).fin_time =
          (if p.type = TMPARAM_AFTER then
            TimestampTzPlusMilliseconds
              (wExample.clock wExample.clock_reads) p.delay_ms
          else p.fin_time) ∧
        (w'.mux.timeouts p.id).start_time =
          wExample.clock wExample.clock_reads) ∧
      (∀ q ∈ ([⟨2, TMPARAM_AT, 0, 99⟩] : List EnableTimeoutParams),
        q.id ∉ ([⟨3, TMPARAM_AFTER, 50, 0⟩] :
          List EnableTimeoutParams).map (fun p => p.id) →
        w'.mux.timeouts q.id = wExample.mux.timeouts q.id ∧
        (q.id ∈ w'.mux.active ↔ q.id ∈ wExample.mux.active)) ∧
      w'.timer_log = wExample.timer_log ++
        (if (([⟨3, TMPARAM_AFTER, 50, 0⟩] ++ ⟨5, 7, 0, 0⟩ ::
              [⟨2, TMPARAM_AT, 0, 99⟩]) :
            List EnableTimeoutParams).length > 1 ||
            num_active_timeouts wExample.mux > 0 then
          [((0 : Int), (0 : Int))] else [])) :=
  ⟨⟨by decide, by decide, by decide⟩,
   C10_enable_timeouts_error wExample [⟨3, TMPARAM_AFTER, 50, 0⟩]
     [⟨2, TMPARAM_AT, 0, 99⟩] ⟨5, 7, 0, 0⟩ (by decide) (by decide) (by decide)
     (by decide) (by decide) (by decide)⟩
